import Mathlib

/-!
Verification of `call_google_translate.py`: a shallow embedding of the
script's line-processing loop over `List Char` (Python strings are modelled
as lists of characters; each input line is modelled without its trailing
newline, since the script's regexes use `.` which never matches a newline
and the final `print(line, end='')` reproduces the newline verbatim).

The Python regular-expression and string-library operations used by the
script are embedded as explicit executable functions with the same
leftmost/greedy/backtracking semantics on the inputs the script feeds them.
-/

namespace KlingonTranslate

/-! ## Basic string helpers (models of Python `str` / `re` primitives) -/

/-- Model of `re.sub(pat, repl, s, 1)` for a pattern that denotes the literal
string `m` (the script only passes literal patterns, with `[` and `]`
escaped): replace the first occurrence of `m` in `s` by `r`; if `m` does not
occur, return `s` unchanged. -/
def replaceFirst : List Char → List Char → List Char → List Char
  | [], _, _ => []
  | c :: rest, m, r =>
    if m.isPrefixOf (c :: rest) then r ++ (c :: rest).drop m.length
    else c :: replaceFirst rest m r

/-- Split `s` at the first occurrence of `m`: returns `(before, after)` with
`s = before ++ m ++ after`, or `none` when `m` does not occur in `s`.
Models Python's leftmost search for a literal substring. -/
def splitFirst : List Char → List Char → Option (List Char × List Char)
  | m, [] => if m.isEmpty then some ([], []) else none
  | m, c :: rest =>
    if m.isPrefixOf (c :: rest) then some ([], (c :: rest).drop m.length)
    else match splitFirst m rest with
      | some (a, b) => some (c :: a, b)
      | none => none

/-- Split `s` at the last occurrence of `m` (via the first occurrence of the
reversed strings): returns `(before, after)` with `s = before ++ m ++ after`. -/
def splitLast (m s : List Char) : Option (List Char × List Char) :=
  match splitFirst m.reverse s.reverse with
  | some (a, b) => some (b.reverse, a.reverse)
  | none => none

/-- Model of Python's `m in s` substring test. -/
def containsSub : List Char → List Char → Bool
  | m, [] => m.isEmpty
  | m, c :: rest => m.isPrefixOf (c :: rest) || containsSub m rest

/-- All splits of `s` at occurrences of `m` (including overlapping
occurrences), left to right: each element `(before, after)` satisfies
`s = before ++ m ++ after`.  Used to model regex backtracking over the
positions where a literal sub-pattern can match. -/
def occSplits : List Char → List Char → List (List Char × List Char)
  | m, [] => if m.isEmpty then [([], [])] else []
  | m, c :: rest =>
    let tailSplits := (occSplits m rest).map (fun p => (c :: p.1, p.2))
    if m.isPrefixOf (c :: rest) then ([], (c :: rest).drop m.length) :: tailSplits
    else tailSplits

/-- Model of Python string `<` (lexicographic comparison of code points). -/
def lexLt : List Char → List Char → Bool
  | [], [] => false
  | [], _ :: _ => true
  | _ :: _, [] => false
  | a :: as, b :: bs => if a < b then true else if b < a then false else lexLt as bs

/-- Decimal digits of `n`, fuelled (structurally recursive) version. -/
def natDigitsAux : Nat → Nat → List Char
  | 0, _ => []
  | fuel + 1, n =>
    if n < 10 then [Nat.digitChar n]
    else natDigitsAux fuel (n / 10) ++ [Nat.digitChar (n % 10)]

/-- Decimal representation of `n`, as produced by Python's `"{}".format(n)`. -/
def natDigits (n : Nat) : List Char := natDigitsAux (n + 1) n

/-- Model of Python `str.replace(m, r)` (replace all non-overlapping
occurrences, left to right), fuelled by the length of `s`. -/
def replaceAllAux : Nat → List Char → List Char → List Char → List Char
  | 0, s, _, _ => s
  | fuel + 1, s, m, r =>
    match splitFirst m s with
    | some (a, b) => a ++ r ++ replaceAllAux fuel b m r
    | none => s

def replaceAll (s m r : List Char) : List Char := replaceAllAux s.length s m r

/-- Model of Python `str.split(',')`. -/
def splitComma : List Char → List (List Char)
  | [] => [[]]
  | c :: rest =>
    if c = ',' then [] :: splitComma rest
    else match splitComma rest with
      | g :: gs => (c :: g) :: gs
      | [] => [[c]]

/-! ## `balanced_brackets` (source lines 83-93) -/

/-- Worker for `balanced_brackets`: `stack` holds the expected closing
brackets, innermost first. -/
def bbGo : List Char → List Char → Bool
  | stack, [] => stack.isEmpty
  | stack, c :: rest =>
    if c = '{' then bbGo ('}' :: stack) rest
    else if c = '[' then bbGo (']' :: stack) rest
    else if c = '(' then bbGo (')' :: stack) rest
    else if c = '}' ∨ c = ']' ∨ c = ')' then
      match stack with
      | top :: stack' => if c = top then bbGo stack' rest else false
      | [] => false
    else bbGo stack rest

/-- `balanced_brackets(line)`: stack-based balance check for the three
bracket families. Non-bracket characters are ignored. -/
def balanced_brackets (line : List Char) : Bool := bbGo [] line

/-! ## `compare_attrs` and the attribute sort (source lines 98-118, 171-176) -/

/-- Model of Python `str.isdigit()` for the ASCII attribute strings used in
the data files: nonempty and all characters decimal digits. -/
def pyIsDigit (s : List Char) : Bool := !s.isEmpty && s.all Char.isDigit

/-- The fixed list of part-of-speech-specific attributes. -/
def important_attrs : List (List Char) :=
  ["ambi".data, "i".data, "i_c".data, "is".data, "t".data, "t_c".data,
   "pref".data, "suff".data, "name".data, "num".data, "pro".data,
   "body".data, "being".data, "place".data, "inhpl".data, "inhps".data,
   "plural".data, "eu".data, "idiom".data, "mv".data, "nt".data,
   "phr".data, "prov".data, "Ql".data, "rej".data, "rp".data, "sp".data,
   "toast".data, "lyr".data, "bc".data, "epithet".data]

/-- `compare_attrs(x, y)`: the comparator passed to `sorted` via
`functools.cmp_to_key`.  Note it never returns 0. -/
def compare_attrs (x y : List Char) : Int :=
  if pyIsDigit x then -1
  else if pyIsDigit y then 1
  else
    let xi := important_attrs.contains x
    let yi := important_attrs.contains y
    if xi && !yi then -1
    else if !xi && yi then 1
    else if lexLt x y then -1
    else 1

/-- Insert `x` into `acc` before the first element that compares greater
(`compare_attrs x y < 0`), after all others. -/
def insertCmp (x : List Char) : List (List Char) → List (List Char)
  | [] => [x]
  | y :: ys => if compare_attrs x y < 0 then x :: y :: ys else y :: insertCmp x ys

/-- Model of `sorted(attrs, key=functools.cmp_to_key(compare_attrs))`:
stable insertion sort, processing elements left to right.  CPython's
`sorted` uses binary insertion for short lists; for two-element lists and
whenever the comparator is a consistent strict weak order (the situations
analysed below) the two algorithms perform the same comparisons and produce
the same result. -/
def sortAttrs (l : List (List Char)) : List (List Char) :=
  l.foldl (fun acc x => insertCmp x acc) []

/-! ## Language map and provider wrapper (source lines 54-78) -/

/-- `supported_languages_map.get(code, "")`: the fixed allow-list mapping
requested language codes to provider-accepted codes; unknown codes map to
the empty string. -/
def supported_languages_map (code : List Char) : List Char :=
  if code = "de".data then "de".data
  else if code = "fa".data then "fa".data
  else if code = "sv".data then "sv".data
  else if code = "ru".data then "ru".data
  else if code = "zh-HK".data then "zh-TW".data
  else if code = "pt".data then "pt".data
  else if code = "fi".data then "fi".data
  else if code = "fr".data then "fr".data
  else []

/-- The external translation provider, abstracted: given `(text, target)`
it returns `some translation` or `none` when the call raises. -/
def Provider : Type := List Char → List Char → Option (List Char)

/-- `translate(text, target_lang)` (source lines 69-78): returns the
provider's text, or the empty string when the provider raises. -/
def translateF (tr : Provider) (text lang : List Char) : List Char :=
  (tr text lang).getD []

/-- `'_'`-to-`'-'` normalisation applied to the language code captured from
a field name (`group(1).replace('_', '-')`). -/
def replaceUnderscore (s : List Char) : List Char :=
  s.map (fun c => if c = '_' then '-' else c)

/-! ## The line regexes (source lines 137-138, 171, 180-183)

Each `re.search` of the script is embedded as a function computing the
captured groups with Python's leftmost-then-greedy backtracking semantics.
Since every pattern is a literal followed by greedy `.*`/`.+` pieces and
literals, a match exists after a later starting position only if one exists
after the first occurrence of the leading literal, so each function only
needs that first occurrence. -/

/-- `re.search(r"definition\">(.*)<", line)`: group 1 runs from the first
occurrence of `definition">` to the last `<` of the line (greedy `.*`). -/
def searchDefinition (line : List Char) : Option (List Char) :=
  match splitFirst "definition\">".data line with
  | some (_, rest) =>
    match splitLast ['<'] rest with
    | some (g, _) => some g
    | none => none
  | none => none

/-- Continuation `(?:: (.*))?<` of the definition-directive regex, applied
to the text following `">TRANSLATE`: the greedy optional group is tried
first (`: ` then group 2 up to the last `<`), then the bare `<`.
Returns `some group2?` on a match. -/
def defDirTail (rest2 : List Char) : Option (Option (List Char)) :=
  match (if ": ".data.isPrefixOf rest2 then
           match splitLast ['<'] (rest2.drop 2) with
           | some (g2, _) => some (some g2)
           | none => none
         else none) with
  | some r => some r
  | none => if rest2.head? = some '<' then some none else none

/-- `re.search(r"definition_(.+)\">TRANSLATE(?:: (.*))?<", line)`: group 1
is the longest nonempty stretch after the first `definition_` that is
followed by `">TRANSLATE` and a matching continuation (backtracking tries
the longest group 1 first). -/
def searchDefDirective (line : List Char) : Option (List Char × Option (List Char)) :=
  match splitFirst "definition_".data line with
  | none => none
  | some (_, r) =>
    let cands := (occSplits "\">TRANSLATE".data r).filterMap
      (fun p => if p.1 ≠ [] then
                  match defDirTail p.2 with
                  | some g2 => some (p.1, g2)
                  | none => none
                else none)
    cands.getLast?

/-- `re.search(r"part_of_speech\">(.*):(.*)<", line)`: group 1 runs from the
first occurrence of `part_of_speech">` to the last `:` that still has a `<`
after it; group 2 runs from there to the last `<`. -/
def searchPos (line : List Char) : Option (List Char × List Char) :=
  match splitFirst "part_of_speech\">".data line with
  | none => none
  | some (_, r) =>
    let cands := (occSplits [':'] r).filterMap
      (fun p => match splitLast ['<'] p.2 with
        | some (g2, _) => some (p.1, g2)
        | none => none)
    cands.getLast?

/-- `re.search(r"\"notes\">(.*)", line)`: group 1 is everything after the
first occurrence of `"notes">` (lines carry no interior newline). -/
def searchNotes (line : List Char) : Option (List Char) :=
  (splitFirst "\"notes\">".data line).map Prod.snd

/-- `re.search(r"notes_(.+)\">TRANSLATE<", line)`: group 1 is the longest
nonempty stretch after the first `notes_` that is followed by the literal
`">TRANSLATE<`. -/
def searchNotesDirective (line : List Char) : Option (List Char) :=
  match splitFirst "notes_".data line with
  | none => none
  | some (_, r) =>
    (((occSplits "\">TRANSLATE<".data r).filter (fun p => p.1 ≠ [])).getLast?).map Prod.fst

/-- `re.sub(r">(.*)<", ">" ++ x ++ "<", line)`: rewrites the span from the
first `>` to the last `<` of the line (the single leftmost-greedy match) to
`>x<`; if no such span exists the line is unchanged.  `x` is inserted
literally, which matches CPython exactly when `x` contains no backslash;
`subAngleE` below extends this with CPython's replacement-template escape
processing, and `subAngleE_ok` proves the two agree on backslash-free
`x`. -/
def subAngle (x : List Char) (line : List Char) : List Char :=
  match splitFirst ['>'] line with
  | none => line
  | some (a, r) =>
    match splitLast ['<'] r with
    | none => line
    | some (_, b) => a ++ '>' :: x ++ '<' :: b

/-! ## The link shield (source lines 199-205 and 213-223) -/

/-- The sentinel token for the `k`-th protected span:
`"DONOTTRANSLATE{}".format(k)`. -/
def sentinel (k : Nat) : List Char := "DONOTTRANSLATE".data ++ natDigits k

/-- Try to read, at the head of `s`, the interior of a protected span for
the bracket family with closer `c` and opener `o`: the regex fragment
`[^oc]*c`.  Returns `(interior, rest-after-closer)`. -/
def scanInner (o c : Char) : List Char → Option (List Char × List Char)
  | [] => none
  | d :: rest =>
    if d = c then some ([], rest)
    else if d = o then none
    else match scanInner o c rest with
      | some (i, r) => some (d :: i, r)
      | none => none

/-- Try to match a full protected span (`o[^oc]*c`) at the head of `s`;
returns `(matched span, rest)`. -/
def spanFrom (o c : Char) : List Char → Option (List Char × List Char)
  | [] => none
  | d :: rest =>
    if d = o then
      match scanInner o c rest with
      | some (i, r) => some (d :: i ++ [c], r)
      | none => none
    else none

/-- Scanner behind `re.findall(r"({[^{}]*}|\[[^\[\]]*\])", notes)`: at each
position try the brace alternative, then the bracket alternative, else
advance one character; on a match continue after it.  Fuelled by the input
length to stay structurally recursive. -/
def findLinksAux : Nat → List Char → List (List Char)
  | 0, _ => []
  | _ + 1, [] => []
  | fuel + 1, ch :: rest =>
    match spanFrom '{' '}' (ch :: rest) with
    | some (m, r2) => m :: findLinksAux fuel r2
    | none =>
      match spanFrom '[' ']' (ch :: rest) with
      | some (m, r2) => m :: findLinksAux fuel r2
      | none => findLinksAux fuel rest

/-- `link_matches = re.findall(r"({[^{}]*}|\[[^\[\]]*\])", notes)`. -/
def findLinks (s : List Char) : List (List Char) := findLinksAux s.length s

/-- The shielding loop (source lines 201-205): replace each found span, in
order, by its 1-based sentinel (first occurrence only).  Each span is used
as a literal pattern, which matches CPython exactly when no brace span's
interior is quantifier-form; `shieldLoopE` below extends this with the
`re.error` that line 203's pattern compilation raises otherwise, and
`shieldLoopE_ok` proves the two agree on safe span lists. -/
def shieldLoop : List Char → Nat → List (List Char) → List Char
  | notes, _, [] => notes
  | notes, k, m :: ms => shieldLoop (replaceFirst notes m (sentinel k)) (k + 1) ms

/-- The inline annotation emitted for a sentinel missing from translated
text: `"<!-- ERROR: Missing link #{}. -->".format(k)`. -/
def missingLinkErrLine (k : Nat) : List Char :=
  "<!-- ERROR: Missing link #".data ++ natDigits k ++ ". -->".data

/-- Result of the restoration loop: the restored text, the concatenation of
the original substrings whose sentinels were missing (`missing_links`), the
inline error annotations printed, and the number of errors counted. -/
structure RestoreOut where
  text : List Char
  missing : List Char
  errLines : List (List Char)
  errCount : Nat
deriving DecidableEq, Repr

/-- The restoration loop (source lines 213-223): substitute each sentinel,
in index order, by its original substring (first occurrence only); when the
text is unchanged, record a missing-link error and append the original
substring to `missing_links`. -/
def restoreLinks (t : List Char) (k : Nat) : List (List Char) → RestoreOut
  | [] => ⟨t, [], [], 0⟩
  | m :: ms =>
    let t2 := replaceFirst t (sentinel k) m
    if t2 = t then
      let r := restoreLinks t2 (k + 1) ms
      ⟨r.text, m ++ r.missing, missingLinkErrLine k :: r.errLines, r.errCount + 1⟩
    else
      let r := restoreLinks t2 (k + 1) ms
      ⟨r.text, r.missing, r.errLines, r.errCount⟩

/-! ## The main loop (source lines 121-247) -/

/-- The mutable state threaded through the main loop.  `num_errors`,
`multiline_notes` and (through Python's module scope) `notes`' companion
`link_matches` persist across files; `definition`, `notes` and `in_comment`
are re-initialised for each file. -/
structure St where
  num_errors : Nat
  multiline_notes : List Char
  definition : List Char
  notes : List Char
  in_comment : Bool
  link_matches : List (List Char)
deriving DecidableEq, Repr

/-- The initial module-level state (source lines 121-122). -/
def st0 : St := ⟨0, [], [], [], false, []⟩

def autotransSuffix : List Char := " [AUTOTRANSLATED]".data

def missingDefErrLine : List Char := "<!-- ERROR: Missing definition. -->".data

def bracketErrLine : List Char := "<!-- ERROR: Mismatched brackets. -->".data

def colTerminator : List Char := "</column>".data

/-- Lines 137, 142-147: capture the English definition; an empty captured
definition is annotated inline and counted as an error. -/
def defCapture (st : St) (line : List Char) : St × List (List Char) :=
  match searchDefinition line with
  | some d =>
    if d = [] then
      ({ st with definition := d, num_errors := st.num_errors + 1 }, [missingDefErrLine])
    else ({ st with definition := d }, [])
  | none => (st, [])

/-- Lines 138, 149-168: act on a definition-translation directive.  Returns
the updated state, the (possibly rewritten) line, and the provider calls
made. -/
def defTranslate (tr : Provider) (st : St) (line : List Char) :
    St × List Char × List (List Char × List Char) :=
  match searchDefDirective line with
  | none => (st, line, [])
  | some (code, ov) =>
    if st.definition = [] then (st, line, [])
    else
      let language := supported_languages_map (replaceUnderscore code)
      if language = [] then (st, line, [])
      else
        let d := match ov with
          | some o => if o ≠ [] then o else st.definition
          | none => st.definition
        if d.head? = some '{' ∧ d.getLast? = some '}' then
          ({ st with definition := d }, subAngle d line, [])
        else
          let t := translateF tr d language
          if t ≠ [] then
            ({ st with definition := d }, subAngle (t ++ autotransSuffix) line, [(d, language)])
          else
            ({ st with definition := d }, subAngle "TRANSLATE".data line, [(d, language)])

/-- Lines 171-176: sort the attributes of a `part_of_speech` field. -/
def posSort (line : List Char) : List Char :=
  match searchPos line with
  | none => line
  | some (pos, attrs) =>
    subAngle (pos ++ ':' :: List.intercalate [','] (sortAttrs (splitComma attrs))) line

/-- Lines 179-205: the multiline-notes accumulator and the link shield.
Updates `notes`, `multiline_notes` and `link_matches`. -/
def notesAccum (st : St) (line : List Char) : St :=
  let nm := if st.multiline_notes = [] then searchNotes line else some line
  match nm with
  | none => st
  | some g =>
    let p :=
      if g = colTerminator then (([] : List Char), st.multiline_notes)
      else if ¬ (colTerminator.isSuffixOf g) then
        (([] : List Char), st.multiline_notes ++ g ++ ['\n'])
      else (st.multiline_notes ++ g.take (g.length - colTerminator.length), ([] : List Char))
    let lm := findLinks p.1
    { st with notes := shieldLoop p.1 1 lm, multiline_notes := p.2, link_matches := lm }

def hkKlingon : List Char := "克林貢".data
def twKlingon : List Char := "克林崗".data

/-- Lines 183, 207-233: act on a notes-translation directive.  Returns the
(possibly rewritten) line, the inline error annotations printed, the number
of errors counted, and the provider calls made. -/
def notesTranslate (tr : Provider) (st : St) (line : List Char) :
    List Char × List (List Char) × Nat × List (List Char × List Char) :=
  match searchNotesDirective line with
  | none => (line, [], 0, [])
  | some code =>
    if st.notes = [] then (line, [], 0, [])
    else
      let language := supported_languages_map (replaceUnderscore code)
      if language = [] then (line, [], 0, [])
      else
        let t := translateF tr st.notes language
        if t = [] then (line, [], 0, [(st.notes, language)])
        else
          let r := restoreLinks t 1 st.link_matches
          let t2 := if language = "zh-TW".data then replaceAll r.text hkKlingon twKlingon
                    else r.text
          (subAngle (t2 ++ r.missing ++ autotransSuffix) line,
           r.errLines, r.errCount, [(st.notes, language)])

/-- Result of processing one input line: the new state, the lines printed
(error annotations in print order, the processed line last), and the
provider calls made. -/
structure StepOut where
  st : St
  emitted : List (List Char)
  calls : List (List Char × List Char)
deriving DecidableEq, Repr

/-- The body of the per-line loop (source lines 131-244). -/
def processLine (tr : Provider) (st : St) (line0 : List Char) : StepOut :=
  let inc := st.in_comment || containsSub "<!-- ".data line0
  if inc then
    let inc2 := if containsSub " -->".data line0 then false else inc
    ⟨{ st with in_comment := inc2 }, [line0], []⟩
  else
    let o1 := defCapture st line0
    let o2 := defTranslate tr o1.1 line0
    let line2 := posSort o2.2.1
    let st3 := notesAccum o2.1 line2
    let o4 := notesTranslate tr st3 line2
    let bracketEm := if balanced_brackets o4.1 then [] else [bracketErrLine]
    let inc2 := if containsSub " -->".data o4.1 then false else false
    ⟨{ st3 with num_errors := st3.num_errors + o4.2.2.1, in_comment := inc2 },
     o1.2 ++ o4.2.1 ++ bracketEm ++ [o4.1], o2.2.2 ++ o4.2.2.2⟩

/-- Process a file's lines in order, threading the state. -/
def processLines (tr : Provider) : St → List (List Char) → StepOut
  | st, [] => ⟨st, [], []⟩
  | st, l :: ls =>
    let o := processLine tr st l
    let r := processLines tr o.st ls
    ⟨r.st, o.emitted ++ r.emitted, o.calls ++ r.calls⟩

/-- The per-file re-initialisation (source lines 128-130): `definition`,
`notes` and `in_comment` are reset, while `num_errors`, `multiline_notes`
and `link_matches` persist from the previous file. -/
def fileInit (st : St) : St :=
  { st with definition := [], notes := [], in_comment := false }

/-- Process one file (source lines 126-244). -/
def runFile (tr : Provider) (st : St) (lines : List (List Char)) : StepOut :=
  processLines tr (fileInit st) lines

/-- Process a list of files in order (source lines 123-244). -/
def runFiles (tr : Provider) : St → List (List (List Char)) → StepOut
  | st, [] => ⟨st, [], []⟩
  | st, f :: fs =>
    let o := runFile tr st f
    let r := runFiles tr o.st fs
    ⟨r.st, o.emitted ++ r.emitted, o.calls ++ r.calls⟩

/-! ## A structural model of texts built from ordinary characters and
well-formed protected spans

The spec's round-trip and missing-token properties quantify over texts
"consisting of ordinary characters and well-formed `{...}` / `[...]` spans
with no same-family nesting".  We realise such a text as a list of
segments.  "Ordinary" is made concrete: a character that is not a bracket,
not the sentinel's initial letter `D` (the spec's own non-collision
assumption: the reserved marker does not occur in the text), not a
character the script's regex-escaping would treat specially inside a
pattern, and not markup (`<`, `>`, `"`) or a newline. -/

/-- Characters excluded from "ordinary" text. -/
def specialChars : List Char :=
  ['{', '}', '[', ']', 'D', '<', '>', '"', '\\', '\n', '.', '*', '+', '?',
   '(', ')', '^', '$', '|']

def ordinaryChar (c : Char) : Bool := !specialChars.contains c

/-- A segment of a well-formed text: a run of ordinary characters, a
`{...}` span, or a `[...]` span (interiors are ordinary characters). -/
inductive Seg where
  | plain : List Char → Seg
  | brace : List Char → Seg
  | brack : List Char → Seg
deriving DecidableEq, Repr

/-- The characters a segment contributes besides its surrounding brackets. -/
def segContent : Seg → List Char
  | .plain s => s
  | .brace i => i
  | .brack i => i

def segWf (g : Seg) : Bool := (segContent g).all ordinaryChar

def segsWf (l : List Seg) : Bool := l.all segWf

/-- The text denoted by a segment list. -/
def render : List Seg → List Char
  | [] => []
  | .plain s :: r => s ++ render r
  | .brace i :: r => ('{' :: i ++ ['}']) ++ render r
  | .brack i :: r => ('[' :: i ++ [']']) ++ render r

/-- The protected spans of a segment list, in order (what
`findLinks` returns on the rendered text). -/
def spansOf : List Seg → List (List Char)
  | [] => []
  | .plain _ :: r => spansOf r
  | .brace i :: r => ('{' :: i ++ ['}']) :: spansOf r
  | .brack i :: r => ('[' :: i ++ [']']) :: spansOf r

def numSpans (l : List Seg) : Nat := (spansOf l).length

/-- The shielded text: each span replaced by its sentinel, numbering the
spans consecutively from `k`. -/
def shieldedFrom : Nat → List Seg → List Char
  | _, [] => []
  | k, .plain s :: r => s ++ shieldedFrom k r
  | k, .brace _ :: r => sentinel k ++ shieldedFrom (k + 1) r
  | k, .brack _ :: r => sentinel k ++ shieldedFrom (k + 1) r

/-- The shielded text with the sentinel for span number `i` deleted
(modelling a provider that dropped that sentinel). -/
def shieldedFromSkip : Nat → Nat → List Seg → List Char
  | _, _, [] => []
  | k, i, .plain s :: r => s ++ shieldedFromSkip k i r
  | k, i, .brace _ :: r => (if k = i then [] else sentinel k) ++ shieldedFromSkip (k + 1) i r
  | k, i, .brack _ :: r => (if k = i then [] else sentinel k) ++ shieldedFromSkip (k + 1) i r

/-- The rendered text with span number `i` omitted (what restoration
reconstructs in place when that span's sentinel was lost). -/
def renderDropSpan : Nat → Nat → List Seg → List Char
  | _, _, [] => []
  | k, i, .plain s :: r => s ++ renderDropSpan k i r
  | k, i, .brace x :: r =>
    (if k = i then [] else '{' :: x ++ ['}']) ++ renderDropSpan (k + 1) i r
  | k, i, .brack x :: r =>
    (if k = i then [] else '[' :: x ++ [']']) ++ renderDropSpan (k + 1) i r

/-! ## Pattern compilation at the shielding re.sub (source line 203)

Line 203 escapes only `[` and `]` in a found span before handing it to
`re.sub` as a pattern, so a brace span `\x7b...\x7d` is compiled as a
regular expression.  When its interior has the shape of a repetition
quantifier — a nonempty digit run, or digit runs (possibly empty) around a
single comma — CPython's `re.compile` raises
`re.error("nothing to repeat")` and the program aborts.  (`shieldLoop`
above is the literal model, adequate exactly when no span is
quantifier-form; `shieldLoopE` also models the compilation failure.) -/

/-- Whether a brace interior is quantifier-form: a nonempty all-digit run
with no comma (`\x7bm\x7d`), or exactly one comma with all-digit (possibly
empty) runs on both sides (`\x7bm,n\x7d`).  Exactly these interiors make
the unescaped pattern raise `re.error` when compiled. -/
def braceQuantifierForm (i : List Char) : Bool :=
  match splitFirst [','] i with
  | none => !i.isEmpty && i.all Char.isDigit
  | some (lo, hi) => lo.all Char.isDigit && hi.all Char.isDigit && !hi.contains ','

/-- Whether a found span's line-203 pattern fails to compile: true for a
brace span whose interior is quantifier-form.  Bracket spans have their
delimiters escaped (`\[`, `\]`) and always compile. -/
def braceSpanQuantifier : List Char → Bool
  | [] => false
  | c :: rest => if c = '{' then braceQuantifierForm rest.dropLast else false

/-- Fallible model of the shielding loop (source lines 201-205) including
pattern compilation: `re.error` (modelled as `Except.error ()`) as soon as
a span's pattern is quantifier-form, otherwise the literal
first-occurrence replacement performed by `shieldLoop`. -/
def shieldLoopE : List Char → Nat → List (List Char) → Except Unit (List Char)
  | notes, _, [] => Except.ok notes
  | notes, k, m :: ms =>
    if braceSpanQuantifier m then Except.error ()
    else shieldLoopE (replaceFirst notes m (sentinel k)) (k + 1) ms

/-- A segment whose span survives line 203: not a brace span with a
quantifier-form interior. -/
def segShieldSafe : Seg → Bool
  | .brace i => !braceQuantifierForm i
  | _ => true

def segsShieldSafe (l : List Seg) : Bool := l.all segShieldSafe

/-! ## Replacement-template escapes (source lines 159, 163, 165, 230)

The script builds `re.sub` replacement strings by formatting raw field
content into `">\x7b\x7d<"`.  CPython processes the resulting template for
escape sequences: `\1` or `\g<1>` substitutes group 1, `\\` yields a
backslash, `\a \b \f \n \r \t \v` yield control characters, octal escapes
(`\0oo`, three-octal-digit `\ooo` up to `\377`) yield the coded character,
any other ASCII letter escape raises `re.error("bad escape")`, a two-digit
group reference or out-of-range group raises `re.error`, and an escaped
non-alphanumeric character is kept as the two characters written.
(`subAngle` above is the literal model, adequate exactly when the inserted
text has no backslash; `subAngleE` also models template processing.  Group
names in `\g<...>` are modelled for digit runs; names acceptable only via
Python's deprecated whitespace/sign `int()` parsing are mapped to the
error they will raise once that deprecation lands.) -/

def isOctalDigit (c : Char) : Bool := '0' ≤ c && c ≤ '7'

def octVal (c : Char) : Nat := c.toNat - '0'.toNat

/-- Value of a decimal digit run. -/
def decVal (s : List Char) : Nat :=
  s.foldl (fun a c => a * 10 + (c.toNat - '0'.toNat)) 0

/-- The control character denoted by a letter escape, if any. -/
def charEscape (c : Char) : Option Char :=
  if c = 'a' then some (Char.ofNat 7)
  else if c = 'b' then some (Char.ofNat 8)
  else if c = 'f' then some (Char.ofNat 12)
  else if c = 'n' then some (Char.ofNat 10)
  else if c = 'r' then some (Char.ofNat 13)
  else if c = 't' then some (Char.ofNat 9)
  else if c = 'v' then some (Char.ofNat 11)
  else none

/-- Process one escape sequence: given the template characters after a
backslash, return the expansion and the remaining template, or the
`re.error` CPython raises.  `g1` is the text of capture group 1. -/
def replEscapeStep (g1 : List Char) : List Char → Except Unit (List Char × List Char)
  | [] => Except.error ()
  | e :: r =>
    if e = '\\' then Except.ok (['\\'], r)
    else if e = 'g' then
      match r with
      | '<' :: r2 =>
        match splitFirst ['>'] r2 with
        | some (name, r3) =>
          if !name.isEmpty && name.all Char.isDigit then
            if decVal name = 1 then Except.ok (g1, r3) else Except.error ()
          else Except.error ()
        | none => Except.error ()
      | _ => Except.error ()
    else if e = '0' then
      match r with
      | d1 :: r1 =>
        if isOctalDigit d1 then
          match r1 with
          | d2 :: r2 =>
            if isOctalDigit d2 then
              Except.ok ([Char.ofNat (octVal d1 * 8 + octVal d2)], r2)
            else Except.ok ([Char.ofNat (octVal d1)], r1)
          | [] => Except.ok ([Char.ofNat (octVal d1)], [])
        else Except.ok ([Char.ofNat 0], r)
      | [] => Except.ok ([Char.ofNat 0], [])
    else if e.isDigit then
      match r with
      | d2 :: r2 =>
        if d2.isDigit then
          match r2 with
          | d3 :: r3 =>
            if isOctalDigit e && isOctalDigit d2 && isOctalDigit d3 then
              if octVal e * 64 + octVal d2 * 8 + octVal d3 ≤ 255 then
                Except.ok ([Char.ofNat (octVal e * 64 + octVal d2 * 8 + octVal d3)], r3)
              else Except.error ()
            else Except.error ()
          | [] => Except.error ()
        else if e = '1' then Except.ok (g1, r) else Except.error ()
      | [] => if e = '1' then Except.ok (g1, []) else Except.error ()
    else
      match charEscape e with
      | some ch => Except.ok ([ch], r)
      | none =>
        if e.isAlpha then Except.error ()
        else Except.ok (['\\', e], r)

/-- Expand a whole replacement template: literal characters are copied,
each backslash hands the rest to `replEscapeStep`.  Fuelled by the
template length to stay structurally recursive. -/
def pyReplEscapeAux (g1 : List Char) : Nat → List Char → Except Unit (List Char)
  | _, [] => Except.ok []
  | 0, _ :: _ => Except.error ()
  | fuel + 1, c :: rest =>
    if c = '\\' then
      match replEscapeStep g1 rest with
      | Except.error () => Except.error ()
      | Except.ok (out, rest2) =>
        (pyReplEscapeAux g1 fuel rest2).map (fun s => out ++ s)
    else (pyReplEscapeAux g1 fuel rest).map (fun s => c :: s)

/-- CPython's replacement-template expansion with group 1 bound to `g1`. -/
def pyReplEscape (g1 t : List Char) : Except Unit (List Char) :=
  pyReplEscapeAux g1 (t.length + 1) t

/-- Fallible model of `re.sub(r">(.*)<", ">\x7b\x7d<".format(x), line)`
including template processing: the template is `>x<`, and group 1 is the
text between the line's first `>` and last `<`. -/
def subAngleE (x : List Char) (line : List Char) : Except Unit (List Char) :=
  match splitFirst ['>'] line with
  | none => Except.ok line
  | some (a, r) =>
    match splitLast ['<'] r with
    | none => Except.ok line
    | some (g1, b) =>
      (pyReplEscape g1 ('>' :: x ++ ['<'])).map (fun out => a ++ out ++ b)

/-- The concrete segment list used as C1's witness text. -/
def c1segs : List Seg :=
  [Seg.plain "see ".data, Seg.brace "boQ".data, Seg.plain " and ".data,
   Seg.brack "1".data, Seg.plain " or ".data, Seg.brace "qep".data]

/-! ## Lemmas: first-occurrence replacement at a known position -/

theorem isPrefixOf_append_self (m t : List Char) : m.isPrefixOf (m ++ t) = true := by
  induction m with
  | nil => simp [List.isPrefixOf]
  | cons c m ih => simp [List.isPrefixOf, ih]

theorem isPrefixOf_cons_of_ne {c a : Char} (m s : List Char) (h : c ≠ a) :
    (c :: m).isPrefixOf (a :: s) = false := by
  simp [List.isPrefixOf, h]

/-- If the head character of `m` does not occur in `A`, the first occurrence
of `m = c :: m'` in `A ++ (c :: m') ++ B` is the displayed one. -/
theorem replaceFirst_append (A B m' r : List Char) (c : Char) (hA : c ∉ A) :
    replaceFirst (A ++ (c :: m') ++ B) (c :: m') r = A ++ r ++ B := by
  induction A with
  | nil =>
    have h1 : (c :: m').isPrefixOf (c :: m' ++ B) = true := isPrefixOf_append_self _ _
    have h2 : (m' ++ B).drop m'.length = B := List.drop_left m' B
    simp [replaceFirst, h1, h2]
  | cons a A ih =>
    have hca : c ≠ a := fun h => hA (h ▸ List.mem_cons_self a A)
    have hA' : c ∉ A := fun h => hA (List.mem_cons_of_mem a h)
    simpa [replaceFirst, hca] using ih hA'

theorem splitFirst_append (A B m' : List Char) (c : Char) (hA : c ∉ A) :
    splitFirst (c :: m') (A ++ (c :: m') ++ B) = some (A, B) := by
  induction A with
  | nil =>
    have h1 : (c :: m').isPrefixOf (c :: m' ++ B) = true := isPrefixOf_append_self _ _
    have h2 : (m' ++ B).drop m'.length = B := List.drop_left m' B
    simp [splitFirst, h1, h2]
  | cons a A ih =>
    have hca : c ≠ a := fun h => hA (h ▸ List.mem_cons_self a A)
    have hA' : c ∉ A := fun h => hA (List.mem_cons_of_mem a h)
    have hih := ih hA'
    simp only [List.append_assoc, List.cons_append] at hih ⊢
    simp only [splitFirst]
    rw [isPrefixOf_cons_of_ne _ _ hca]
    simp only [Bool.false_eq_true, if_false, hih]

theorem containsSub_append_left {c : Char} (m' : List Char) (A B : List Char)
    (hA : c ∉ A) : containsSub (c :: m') (A ++ B) = containsSub (c :: m') B := by
  induction A with
  | nil => simp
  | cons a A ih =>
    have hca : c ≠ a := fun h => hA (h ▸ List.mem_cons_self a A)
    have hA' : c ∉ A := fun h => hA (List.mem_cons_of_mem a h)
    rw [List.cons_append, containsSub, isPrefixOf_cons_of_ne _ _ hca]
    simpa using ih hA'

theorem containsSub_of_not_mem_head {c : Char} (m' s : List Char) (hs : c ∉ s) :
    containsSub (c :: m') s = false := by
  have := containsSub_append_left m' s [] hs
  simpa [containsSub] using this

theorem replaceFirst_of_not_contains (s m r : List Char) (h : containsSub m s = false) :
    replaceFirst s m r = s := by
  induction s with
  | nil => rfl
  | cons a s ih =>
    rw [containsSub] at h
    rcases Bool.or_eq_false_iff.mp h with ⟨h1, h2⟩
    rw [replaceFirst, h1]
    simp [ih h2]

/-! ## Lemmas: character classes of sentinels and ordinary text -/

def digitChars : List Char := "0123456789".data

def sentinelAlphabet : List Char := "DONOTTRANSLATE0123456789".data

theorem digitChar_mem_digits : ∀ m, m < 10 → Nat.digitChar m ∈ digitChars := by decide

theorem natDigitsAux_subset :
    ∀ fuel n c, c ∈ natDigitsAux fuel n → c ∈ digitChars := by
  intro fuel
  induction fuel with
  | zero => intro n c hc; simp [natDigitsAux] at hc
  | succ fuel ih =>
    intro n c hc
    rw [natDigitsAux] at hc
    by_cases h : n < 10
    · rw [if_pos h] at hc
      simp at hc
      exact hc ▸ digitChar_mem_digits n h
    · rw [if_neg h] at hc
      rcases List.mem_append.mp hc with h1 | h1
      · exact ih _ _ h1
      · simp at h1
        exact h1 ▸ digitChar_mem_digits _ (Nat.mod_lt _ (by norm_num))

theorem natDigits_subset (n : Nat) {c : Char} (hc : c ∈ natDigits n) : c ∈ digitChars :=
  natDigitsAux_subset _ _ _ hc

theorem sentinel_subset (k : Nat) {c : Char} (hc : c ∈ sentinel k) :
    c ∈ sentinelAlphabet := by
  rcases List.mem_append.mp hc with h | h
  · have hall : ∀ c ∈ "DONOTTRANSLATE".data, c ∈ sentinelAlphabet := by decide
    exact hall c h
  · have hall : ∀ c ∈ digitChars, c ∈ sentinelAlphabet := by decide
    exact hall c (natDigits_subset _ h)

theorem not_mem_sentinel {c : Char} (k : Nat) (hc : c ∉ sentinelAlphabet) :
    c ∉ sentinel k := fun h => hc (sentinel_subset k h)

theorem sentinel_eq_cons (k : Nat) :
    sentinel k = 'D' :: ("ONOTTRANSLATE".data ++ natDigits k) := rfl

theorem sentinel_tail_no_D (k : Nat) : 'D' ∉ "ONOTTRANSLATE".data ++ natDigits k := by
  intro h
  rcases List.mem_append.mp h with h1 | h1
  · revert h1; decide
  · have := natDigits_subset _ h1
    revert this; decide

theorem natDigits_single (i : Nat) (h : i < 10) : natDigits i = [Nat.digitChar i] := by
  simp [natDigits, natDigitsAux, h]

theorem isPrefixOf_append_same (a b c : List Char) :
    (a ++ b).isPrefixOf (a ++ c) = b.isPrefixOf c := by
  induction a with
  | nil => simp
  | cons x a ih => simpa [List.isPrefixOf] using ih

/-- Distinct single-digit sentinels never prefix each other, whatever
follows. -/
theorem sentinel_not_prefix {i j : Nat} (hi : i < 10) (hj : j < 10) (hij : i ≠ j)
    (X : List Char) : (sentinel i).isPrefixOf (sentinel j ++ X) = false := by
  have hd : ∀ a < 10, ∀ b < 10, a ≠ b → Nat.digitChar a ≠ Nat.digitChar b := by decide
  rw [sentinel, sentinel, natDigits_single i hi, natDigits_single j hj,
    List.append_assoc]
  rw [isPrefixOf_append_same "DONOTTRANSLATE".data [Nat.digitChar i]
    ([Nat.digitChar j] ++ X)]
  simp [List.isPrefixOf, hd i hi j hj hij]

theorem ordinary_spec {c : Char} (h : ordinaryChar c = true) : c ∉ specialChars := by
  intro hc
  rw [ordinaryChar] at h
  have : specialChars.contains c = true := List.elem_iff.mpr hc
  rw [this] at h
  simp at h

theorem ordinary_ne {c : Char} (h : ordinaryChar c = true) {d : Char}
    (hd : d ∈ specialChars) : c ≠ d := fun he => ordinary_spec h (he ▸ hd)

theorem not_mem_of_ordinary {s : List Char} (hs : ∀ c ∈ s, ordinaryChar c = true)
    {d : Char} (hd : d ∈ specialChars) : d ∉ s :=
  fun h => ordinary_ne (hs d h) hd rfl

theorem sentinel_no_openers (k : Nat) : '{' ∉ sentinel k ∧ '[' ∉ sentinel k :=
  ⟨not_mem_sentinel k (by decide), not_mem_sentinel k (by decide)⟩

/-! ## Lemmas: the findall scanner on well-formed texts -/

theorem scanInner_exact {o c : Char} (i t : List Char)
    (hi : ∀ x ∈ i, x ≠ o ∧ x ≠ c) :
    scanInner o c (i ++ c :: t) = some (i, t) := by
  induction i with
  | nil => simp [scanInner]
  | cons x i ih =>
    have hx := hi x (List.mem_cons_self x i)
    have hi' : ∀ y ∈ i, y ≠ o ∧ y ≠ c := fun y hy => hi y (List.mem_cons_of_mem x hy)
    simp [scanInner, hx.1, hx.2, ih hi']

theorem spanFrom_exact {o c : Char} (i t : List Char)
    (hi : ∀ x ∈ i, x ≠ o ∧ x ≠ c) :
    spanFrom o c (o :: (i ++ c :: t)) = some (o :: i ++ [c], t) := by
  simp [spanFrom, scanInner_exact i t hi]

theorem spanFrom_none {o c d : Char} (rest : List Char) (h : d ≠ o) :
    spanFrom o c (d :: rest) = none := by
  simp [spanFrom, h]

theorem findLinksAux_nil (fuel : Nat) : findLinksAux fuel [] = [] := by
  cases fuel <;> rfl

theorem findLinksAux_skip (s : List Char) (hs : ∀ c ∈ s, ordinaryChar c = true) :
    ∀ fuel t, (s ++ t).length ≤ fuel →
      findLinksAux fuel (s ++ t) = findLinksAux (fuel - s.length) t := by
  induction s with
  | nil => intro fuel t _; simp
  | cons x s ih =>
    intro fuel t hlen
    have hx := hs x (List.mem_cons_self x s)
    have hs' : ∀ c ∈ s, ordinaryChar c = true := fun c hc => hs c (List.mem_cons_of_mem x hc)
    cases fuel with
    | zero => simp at hlen
    | succ f =>
      have hne1 : x ≠ '{' := ordinary_ne hx (by decide)
      have hne2 : x ≠ '[' := ordinary_ne hx (by decide)
      rw [List.cons_append, findLinksAux, spanFrom_none _ hne1, spanFrom_none _ hne2]
      have hlt : (s ++ t).length ≤ f := by
        simp only [List.cons_append, List.length_cons] at hlen
        omega
      rw [ih hs' f t hlt]
      simp [Nat.succ_sub_succ]

theorem render_nil_spans {segs : List Seg} (h : render segs = []) : spansOf segs = [] := by
  induction segs with
  | nil => rfl
  | cons g r ih =>
    cases g with
    | plain s =>
      rw [render] at h
      rcases List.append_eq_nil.mp h with ⟨_, h2⟩
      rw [spansOf]
      exact ih h2
    | brace i => rw [render] at h; simp at h
    | brack i => rw [render] at h; simp at h

theorem findLinksAux_render (segs : List Seg) :
    ∀ fuel, segsWf segs = true → (render segs).length ≤ fuel →
      findLinksAux fuel (render segs) = spansOf segs := by
  induction segs with
  | nil => intro fuel _ _; simp [render, spansOf, findLinksAux_nil]
  | cons g r ih =>
    intro fuel hwf hlen
    have hgw : segWf g = true := by
      rw [segsWf, List.all_cons, Bool.and_eq_true] at hwf
      exact hwf.1
    have hrw : segsWf r = true := by
      rw [segsWf, List.all_cons, Bool.and_eq_true] at hwf
      exact hwf.2
    cases g with
    | plain s =>
      have hs : ∀ c ∈ s, ordinaryChar c = true := by
        intro c hc
        have := hgw
        rw [segWf, segContent, List.all_eq_true] at this
        exact this c hc
      rw [render, findLinksAux_skip s hs fuel (render r) (by rw [render] at hlen; exact hlen)]
      rw [spansOf]
      apply ih _ hrw
      rw [render, List.length_append] at hlen
      omega
    | brace i =>
      have hi : ∀ x ∈ i, x ≠ '{' ∧ x ≠ '}' := by
        intro x hx
        rw [segWf, segContent, List.all_eq_true] at hgw
        exact ⟨ordinary_ne (hgw x hx) (by decide), ordinary_ne (hgw x hx) (by decide)⟩
      have hshape : render (.brace i :: r) = '{' :: (i ++ '}' :: render r) := by
        rw [render]; simp
      rw [hshape] at hlen ⊢
      cases fuel with
      | zero => simp at hlen
      | succ f =>
        have hih : findLinksAux f (render r) = spansOf r := by
          apply ih _ hrw
          simp only [List.length_cons, List.length_append] at hlen
          omega
        rw [findLinksAux, spanFrom_exact i (render r) hi]
        show ('\x7b' :: i ++ ['\x7d']) :: findLinksAux f (render r) = _
        rw [hih, spansOf]
    | brack i =>
      have hi : ∀ x ∈ i, x ≠ '[' ∧ x ≠ ']' := by
        intro x hx
        rw [segWf, segContent, List.all_eq_true] at hgw
        exact ⟨ordinary_ne (hgw x hx) (by decide), ordinary_ne (hgw x hx) (by decide)⟩
      have hshape : render (.brack i :: r) = '[' :: (i ++ ']' :: render r) := by
        rw [render]; simp
      rw [hshape] at hlen ⊢
      cases fuel with
      | zero => simp at hlen
      | succ f =>
        have hih : findLinksAux f (render r) = spansOf r := by
          apply ih _ hrw
          simp only [List.length_cons, List.length_append] at hlen
          omega
        rw [findLinksAux, spanFrom_none _ (by decide), spanFrom_exact i (render r) hi]
        show ('[' :: i ++ [']']) :: findLinksAux f (render r) = _
        rw [hih, spansOf]

/-- `re.findall` on a well-formed text returns exactly its protected spans,
in order. -/
theorem findLinks_render (segs : List Seg) (h : segsWf segs = true) :
    findLinks (render segs) = spansOf segs :=
  findLinksAux_render segs _ h le_rfl

/-! ## Lemmas: shielding and restoration on well-formed texts -/

theorem segsWf_cons {g : Seg} {r : List Seg} (h : segsWf (g :: r) = true) :
    segWf g = true ∧ segsWf r = true := by
  rw [segsWf, List.all_cons, Bool.and_eq_true] at h
  exact h

theorem segWf_ordinary {g : Seg} (h : segWf g = true) :
    ∀ c ∈ segContent g, ordinaryChar c = true := by
  rw [segWf, List.all_eq_true] at h
  exact h

/-- Variant of `replaceFirst_append` in the right-nested normal form in
which span replacement sites occur. -/
theorem replaceFirst_span (A B i r : List Char) (c cl : Char) (hA : c ∉ A) :
    replaceFirst (A ++ (c :: (i ++ cl :: B))) (c :: (i ++ [cl])) r = A ++ (r ++ B) := by
  have h := replaceFirst_append A B (i ++ [cl]) r c hA
  rw [show A ++ (c :: (i ++ [cl])) ++ B = A ++ (c :: (i ++ cl :: B)) by simp] at h
  rw [h, List.append_assoc]

/-- Replacing the sentinel `k` at its own position, when the prefix has no
`D`. -/
theorem replaceFirst_sentinel_at (A B r : List Char) (k : Nat) (hA : 'D' ∉ A) :
    replaceFirst (A ++ (sentinel k ++ B)) (sentinel k) r = A ++ (r ++ B) := by
  rw [sentinel_eq_cons k]
  have h := replaceFirst_append A B ("ONOTTRANSLATE".data ++ natDigits k) r 'D' hA
  rw [show A ++ ('D' :: ("ONOTTRANSLATE".data ++ natDigits k)) ++ B =
    A ++ ('D' :: ("ONOTTRANSLATE".data ++ natDigits k) ++ B) by simp] at h
  rw [h, List.append_assoc]

theorem not_mem_append_parts {c : Char} {a b : List Char} (ha : c ∉ a) (hb : c ∉ b) :
    c ∉ a ++ b := by
  intro h
  rcases List.mem_append.mp h with h | h
  · exact ha h
  · exact hb h

/-- The shielding loop on a well-formed text replaces each span by its
sentinel, in order, provided the already-processed prefix contains no
opening bracket. -/
theorem shieldLoop_render (segs : List Seg) :
    ∀ pre k, segsWf segs = true → '{' ∉ pre → '[' ∉ pre →
      shieldLoop (pre ++ render segs) k (spansOf segs) = pre ++ shieldedFrom k segs := by
  induction segs with
  | nil => intro pre k _ _ _; simp [render, spansOf, shieldedFrom, shieldLoop]
  | cons g r ih =>
    intro pre k hwf hpre1 hpre2
    obtain ⟨hgw, hrw⟩ := segsWf_cons hwf
    cases g with
    | plain s =>
      have hs := segWf_ordinary hgw
      rw [segContent] at hs
      have h1 : '{' ∉ pre ++ s :=
        not_mem_append_parts hpre1 (not_mem_of_ordinary hs (by decide))
      have h2 : '[' ∉ pre ++ s :=
        not_mem_append_parts hpre2 (not_mem_of_ordinary hs (by decide))
      have hih := ih (pre ++ s) k hrw h1 h2
      rw [render, spansOf, shieldedFrom, ← List.append_assoc, hih, List.append_assoc]
    | brace i =>
      have hsent := sentinel_no_openers k
      have h1 : '{' ∉ pre ++ sentinel k := not_mem_append_parts hpre1 hsent.1
      have h2 : '[' ∉ pre ++ sentinel k := not_mem_append_parts hpre2 hsent.2
      have hih := ih (pre ++ sentinel k) (k + 1) hrw h1 h2
      rw [render, spansOf, shieldedFrom, shieldLoop]
      rw [show pre ++ ('{' :: i ++ ['}'] ++ render r) =
        pre ++ ('{' :: (i ++ '}' :: render r)) by simp]
      rw [show ('{' :: i ++ ['}'] : List Char) = '{' :: (i ++ ['}']) by simp]
      rw [replaceFirst_span pre (render r) i (sentinel k) '{' '}' hpre1]
      rw [← List.append_assoc, hih, List.append_assoc]
    | brack i =>
      have hsent := sentinel_no_openers k
      have h1 : '{' ∉ pre ++ sentinel k := not_mem_append_parts hpre1 hsent.1
      have h2 : '[' ∉ pre ++ sentinel k := not_mem_append_parts hpre2 hsent.2
      have hih := ih (pre ++ sentinel k) (k + 1) hrw h1 h2
      rw [render, spansOf, shieldedFrom, shieldLoop]
      rw [show pre ++ ('[' :: i ++ [']'] ++ render r) =
        pre ++ ('[' :: (i ++ ']' :: render r)) by simp]
      rw [show ('[' :: i ++ [']'] : List Char) = '[' :: (i ++ [']']) by simp]
      rw [replaceFirst_span pre (render r) i (sentinel k) '[' ']' hpre2]
      rw [← List.append_assoc, hih, List.append_assoc]

/-- `shield`: on a well-formed text, the shielding loop driven by the spans
found by `findLinks` yields the text with every span replaced by its
sentinel. -/
theorem shield_eq_shielded (segs : List Seg) (h : segsWf segs = true) :
    shieldLoop (render segs) 1 (findLinks (render segs)) = shieldedFrom 1 segs := by
  rw [findLinks_render segs h]
  have := shieldLoop_render segs [] 1 h (by simp) (by simp)
  simpa using this

theorem span_no_D {g : Seg} (hgw : segWf g = true) (i : List Char) (c : Char)
    (hc : c = '{' ∨ c = '[') (hi : segContent g = i) (cl : Char)
    (hcl : cl = '}' ∨ cl = ']') : 'D' ∉ (c :: i ++ [cl]) := by
  intro h
  have hs := segWf_ordinary hgw
  rw [hi] at hs
  rcases List.mem_cons.mp h with h | h
  · rcases hc with h1 | h1 <;> simp [h1] at h
  · rcases List.mem_append.mp h with h | h
    · exact ordinary_ne (hs 'D' h) (by decide) rfl
    · simp at h
      rcases hcl with h1 | h1 <;> rw [h1] at h <;> exact absurd h (by decide)

theorem span_append_ne_sentinel {k : Nat} (pre B Y sp : List Char) (c : Char)
    (hc : c = '{' ∨ c = '[') (hsp : sp.head? = some c) :
    pre ++ (sp ++ B) ≠ pre ++ (sentinel k ++ Y) := by
  intro h
  have h2 := List.append_cancel_left h
  obtain ⟨sp', rfl⟩ : ∃ sp', sp = c :: sp' := by
    cases sp with
    | nil => simp at hsp
    | cons a t =>
      simp at hsp
      exact ⟨t, by rw [hsp]⟩
  rw [sentinel_eq_cons, List.cons_append] at h2
  have h3 := (List.cons.injEq _ _ _ _).mp h2
  rcases hc with h1 | h1 <;> rw [h1] at h3 <;> exact absurd h3.1 (by decide)

/-- The restoration loop on the shielded form of a well-formed text puts
every span back, reporting no missing links, provided the already-restored
prefix contains no `D`. -/
theorem restoreLinks_render (segs : List Seg) :
    ∀ pre k, segsWf segs = true → 'D' ∉ pre →
      restoreLinks (pre ++ shieldedFrom k segs) k (spansOf segs) =
        ⟨pre ++ render segs, [], [], 0⟩ := by
  induction segs with
  | nil => intro pre k _ _; simp [render, spansOf, shieldedFrom, restoreLinks]
  | cons g r ih =>
    intro pre k hwf hpre
    obtain ⟨hgw, hrw⟩ := segsWf_cons hwf
    cases g with
    | plain s =>
      have hs := segWf_ordinary hgw
      rw [segContent] at hs
      have h1 : 'D' ∉ pre ++ s :=
        not_mem_append_parts hpre (not_mem_of_ordinary hs (by decide))
      have hih := ih (pre ++ s) k hrw h1
      rw [render, spansOf, shieldedFrom, ← List.append_assoc, hih, List.append_assoc]
    | brace i =>
      have hm : 'D' ∉ ('{' :: i ++ ['}']) :=
        span_no_D hgw i '{' (Or.inl rfl) rfl '}' (Or.inl rfl)
      have h1 : 'D' ∉ pre ++ ('{' :: i ++ ['}']) := not_mem_append_parts hpre hm
      rw [render, spansOf, shieldedFrom, restoreLinks]
      rw [replaceFirst_sentinel_at pre (shieldedFrom (k + 1) r) ('{' :: i ++ ['}']) k hpre]
      rw [if_neg (span_append_ne_sentinel pre (shieldedFrom (k + 1) r)
        (shieldedFrom (k + 1) r) ('{' :: i ++ ['}']) '{' (Or.inl rfl) rfl)]
      have hih := ih (pre ++ ('{' :: i ++ ['}'])) (k + 1) hrw h1
      rw [← List.append_assoc, hih]
      simp
    | brack i =>
      have hm : 'D' ∉ ('[' :: i ++ [']']) :=
        span_no_D hgw i '[' (Or.inr rfl) rfl ']' (Or.inr rfl)
      have h1 : 'D' ∉ pre ++ ('[' :: i ++ [']']) := not_mem_append_parts hpre hm
      rw [render, spansOf, shieldedFrom, restoreLinks]
      rw [replaceFirst_sentinel_at pre (shieldedFrom (k + 1) r) ('[' :: i ++ [']']) k hpre]
      rw [if_neg (span_append_ne_sentinel pre (shieldedFrom (k + 1) r)
        (shieldedFrom (k + 1) r) ('[' :: i ++ [']']) '[' (Or.inr rfl) rfl)]
      have hih := ih (pre ++ ('[' :: i ++ [']'])) (k + 1) hrw h1
      rw [← List.append_assoc, hih]
      simp

/-! ## Claim C1 -/

/-- When no listed span is quantifier-form, the fallible shielding loop
succeeds and agrees with the literal one. -/
theorem shieldLoopE_ok (notes : List Char) (k : Nat) (ms : List (List Char))
    (h : ∀ m ∈ ms, braceSpanQuantifier m = false) :
    shieldLoopE notes k ms = Except.ok (shieldLoop notes k ms) := by
  induction ms generalizing notes k with
  | nil => rfl
  | cons m ms ih =>
    have hm : braceSpanQuantifier m = false := h m (List.mem_cons_self m ms)
    rw [shieldLoopE, shieldLoop, if_neg (by simp [hm])]
    exact ih (replaceFirst notes m (sentinel k)) (k + 1)
      (fun x hx => h x (List.mem_cons_of_mem m hx))

/-- The spans of a shield-safe segment list all compile at line 203. -/
theorem spansOf_shieldSafe (segs : List Seg) (h : segsShieldSafe segs = true) :
    ∀ m ∈ spansOf segs, braceSpanQuantifier m = false := by
  induction segs with
  | nil => intro m hm; simp [spansOf] at hm
  | cons g r ih =>
    intro m hm
    rw [segsShieldSafe, List.all_cons, Bool.and_eq_true] at h
    cases g with
    | plain s => exact ih h.2 m hm
    | brace i =>
      rw [spansOf] at hm
      rcases List.mem_cons.mp hm with he | hm'
      · subst he
        show (if ('\x7b' : Char) = '\x7b' then
          braceQuantifierForm (i ++ ['\x7d']).dropLast else false) = false
        rw [if_pos rfl, List.dropLast_concat]
        have hs := h.1
        rw [segShieldSafe, Bool.not_eq_true'] at hs
        exact hs
      · exact ih h.2 m hm'
    | brack i =>
      rw [spansOf] at hm
      rcases List.mem_cons.mp hm with he | hm'
      · subst he
        show (if ('[' : Char) = '\x7b' then
          braceQuantifierForm (i ++ [']']).dropLast else false) = false
        rw [if_neg (by decide)]
      · exact ih h.2 m hm'

/-- C1 (amended): Token shield round-trip.  For every text consisting of
ordinary characters and well-formed `{...}` / `[...]` spans with no
same-family nesting (a rendered well-formed segment list) in which no brace
interior is quantifier-form, the line-203 patterns all compile (the
fallible shielding loop succeeds and agrees with the literal one), and
shielding the text (replacing each protected span, left to right, by the
sentinel carrying its 1-based occurrence index, as the script's lines
199-205 do) and then restoring the sentinels in index order with the
identity translation (the script's lines 213-223) reconstructs the
original text exactly, with no missing links and no errors.  Without the
quantifier-form exclusion the shielding re.sub raises `re.error` — see the
counterexample. -/
theorem c1_shield_roundtrip (segs : List Seg) (h : segsWf segs = true)
    (hsafe : segsShieldSafe segs = true) :
    shieldLoopE (render segs) 1 (findLinks (render segs)) =
      Except.ok (shieldLoop (render segs) 1 (findLinks (render segs))) ∧
    restoreLinks (shieldLoop (render segs) 1 (findLinks (render segs))) 1
      (findLinks (render segs)) =
      ⟨render segs, [], [], 0⟩ := by
  constructor
  · rw [findLinks_render segs h]
    exact shieldLoopE_ok _ _ _ (spansOf_shieldSafe segs hsafe)
  · have h1 := shield_eq_shielded segs h
    rw [findLinks_render segs h] at h1 ⊢
    rw [h1]
    have h2 := restoreLinks_render segs [] 1 h (by simp)
    simpa using h2

/-- Witness for C1 at the concrete text `see {boQ} and [1] or {qep}`. -/
theorem c1_shield_roundtrip_witness :
    segsWf c1segs = true ∧ segsShieldSafe c1segs = true ∧
    (shieldLoopE (render c1segs) 1 (findLinks (render c1segs)) =
      Except.ok (shieldLoop (render c1segs) 1 (findLinks (render c1segs))) ∧
    restoreLinks (shieldLoop (render c1segs) 1 (findLinks (render c1segs))) 1
      (findLinks (render c1segs)) =
      ⟨render c1segs, [], [], 0⟩) :=
  ⟨by decide, by decide, c1_shield_roundtrip c1segs (by decide) (by decide)⟩

/-- Counterexample to C1 as previously stated for all well-formed segment
lists: the digit `2` is an ordinary character, so `\x7b2\x7d` is an
admissible protected span, but line 203 then passes the unescaped pattern
`\x7b2\x7d` to `re.sub`, whose compilation raises
`re.error("nothing to repeat")`: the program crashes instead of
round-tripping. -/
theorem c1_counterexample :
    segsWf [Seg.brace ['2']] = true ∧
    shieldLoopE (render [Seg.brace ['2']]) 1
      (findLinks (render [Seg.brace ['2']])) = Except.error () := by
  exact ⟨by decide, rfl⟩

/-! ## Claim C2 -/

theorem shieldedFromSkip_of_lt :
    ∀ (segs : List Seg) (k i : Nat), i < k →
      shieldedFromSkip k i segs = shieldedFrom k segs := by
  intro segs
  induction segs with
  | nil => intro k i _; rfl
  | cons g r ih =>
    intro k i hik
    cases g with
    | plain s => rw [shieldedFromSkip, shieldedFrom, ih k i hik]
    | brace x =>
      rw [shieldedFromSkip, shieldedFrom, if_neg (by omega), ih (k + 1) i (by omega)]
    | brack x =>
      rw [shieldedFromSkip, shieldedFrom, if_neg (by omega), ih (k + 1) i (by omega)]

theorem renderDropSpan_of_lt :
    ∀ (segs : List Seg) (k i : Nat), i < k →
      renderDropSpan k i segs = render segs := by
  intro segs
  induction segs with
  | nil => intro k i _; rfl
  | cons g r ih =>
    intro k i hik
    cases g with
    | plain s => rw [renderDropSpan, render, ih k i hik]
    | brace x =>
      rw [renderDropSpan, render, if_neg (by omega), ih (k + 1) i (by omega)]
    | brack x =>
      rw [renderDropSpan, render, if_neg (by omega), ih (k + 1) i (by omega)]

theorem numSpans_cons_plain (s : List Char) (r : List Seg) :
    numSpans (Seg.plain s :: r) = numSpans r := by
  simp [numSpans, spansOf]

theorem numSpans_cons_brace (x : List Char) (r : List Seg) :
    numSpans (Seg.brace x :: r) = numSpans r + 1 := by
  simp [numSpans, spansOf]

theorem numSpans_cons_brack (x : List Char) (r : List Seg) :
    numSpans (Seg.brack x :: r) = numSpans r + 1 := by
  simp [numSpans, spansOf]

theorem containsSub_sentinel_skip {i j : Nat} (hi : i < 10) (hj : j < 10)
    (hij : i ≠ j) (X : List Char) :
    containsSub (sentinel i) (sentinel j ++ X) = containsSub (sentinel i) X := by
  have hnp := sentinel_not_prefix hi hj hij X
  rw [sentinel_eq_cons j, List.cons_append] at hnp ⊢
  rw [containsSub, hnp, Bool.false_or]
  rw [sentinel_eq_cons i]
  exact containsSub_append_left _ _ X (sentinel_tail_no_D j)

theorem sentinel_nonempty_contains_nil (i : Nat) :
    containsSub (sentinel i) [] = false := by
  rw [containsSub, sentinel_eq_cons]
  rfl

/-- The sentinel of a span with index below every remaining span index does
not occur in the shielded suffix (sentinel indices are single digits, so no
prefix collisions). -/
theorem sentinel_not_in_shielded (i : Nat) (hi : i < 10) :
    ∀ (segs : List Seg) (k : Nat), segsWf segs = true → i < k →
      k + numSpans segs ≤ 10 →
      containsSub (sentinel i) (shieldedFrom k segs) = false := by
  intro segs
  induction segs with
  | nil => intro k _ _ _; rw [shieldedFrom]; exact sentinel_nonempty_contains_nil i
  | cons g r ih =>
    intro k hwf hik hbound
    obtain ⟨hgw, hrw⟩ := segsWf_cons hwf
    cases g with
    | plain s =>
      have hs := segWf_ordinary hgw
      rw [segContent] at hs
      rw [numSpans_cons_plain] at hbound
      rw [shieldedFrom, sentinel_eq_cons i,
        containsSub_append_left _ _ _ (not_mem_of_ordinary hs (by decide)),
        ← sentinel_eq_cons i]
      exact ih k hrw hik hbound
    | brace x =>
      rw [numSpans_cons_brace] at hbound
      rw [shieldedFrom, containsSub_sentinel_skip hi (by omega) (by omega)]
      exact ih (k + 1) hrw (by omega) (by omega)
    | brack x =>
      rw [numSpans_cons_brack] at hbound
      rw [shieldedFrom, containsSub_sentinel_skip hi (by omega) (by omega)]
      exact ih (k + 1) hrw (by omega) (by omega)

/-- Restoration when exactly the sentinel for span `i` was deleted from the
shielded text and all span indices are single digits: span `i` is reported
missing (once), its text goes to `missing_links`, and every other span is
restored in place. -/
theorem restoreLinks_skip (segs : List Seg) :
    ∀ pre k i, segsWf segs = true → 'D' ∉ pre → 1 ≤ i → k ≤ i →
      i < k + numSpans segs → k + numSpans segs ≤ 10 →
      restoreLinks (pre ++ shieldedFromSkip k i segs) k (spansOf segs) =
        ⟨pre ++ renderDropSpan k i segs, (spansOf segs).getD (i - k) [],
         [missingLinkErrLine i], 1⟩ := by
  induction segs with
  | nil =>
    intro pre k i _ _ _ hki hlt _
    rw [numSpans] at hlt
    simp [spansOf] at hlt
    omega
  | cons g r ih =>
    intro pre k i hwf hpre hi1 hki hlt hbound
    obtain ⟨hgw, hrw⟩ := segsWf_cons hwf
    cases g with
    | plain s =>
      have hs := segWf_ordinary hgw
      rw [segContent] at hs
      have h1 : 'D' ∉ pre ++ s :=
        not_mem_append_parts hpre (not_mem_of_ordinary hs (by decide))
      rw [numSpans_cons_plain] at hlt hbound
      have hih := ih (pre ++ s) k i hrw h1 hi1 hki hlt hbound
      rw [shieldedFromSkip, spansOf, renderDropSpan, ← List.append_assoc, hih,
        List.append_assoc]
    | brace x =>
      rw [numSpans_cons_brace] at hlt hbound
      rcases Nat.lt_or_ge k i with hklt | hkge
      · -- k < i : restore this span normally and recurse
        have h1 : 'D' ∉ pre ++ ('{' :: x ++ ['}']) :=
          not_mem_append_parts hpre
            (span_no_D hgw x '{' (Or.inl rfl) rfl '}' (Or.inl rfl))
        rw [shieldedFromSkip, spansOf, renderDropSpan, restoreLinks,
          if_neg (by omega : ¬ k = i), if_neg (by omega : ¬ k = i)]
        rw [replaceFirst_sentinel_at pre (shieldedFromSkip (k + 1) i r)
          ('{' :: x ++ ['}']) k hpre]
        rw [if_neg (span_append_ne_sentinel pre (shieldedFromSkip (k + 1) i r)
          (shieldedFromSkip (k + 1) i r) ('{' :: x ++ ['}']) '{' (Or.inl rfl) rfl)]
        have hih := ih (pre ++ ('{' :: x ++ ['}'])) (k + 1) i hrw h1 hi1
          (by omega) (by omega) (by omega)
        rw [← List.append_assoc, hih]
        obtain ⟨n, hn⟩ : ∃ n, i - k = n + 1 := ⟨i - k - 1, by omega⟩
        have hn2 : n = i - (k + 1) := by omega
        rw [hn, List.getD_cons_succ, hn2]
        simp
      · -- k = i : this span's sentinel was deleted
        have hkeq : k = i := by omega
        subst hkeq
        rw [shieldedFromSkip, spansOf, renderDropSpan, restoreLinks,
          if_pos rfl, if_pos rfl]
        rw [shieldedFromSkip_of_lt r (k + 1) k (by omega),
          renderDropSpan_of_lt r (k + 1) k (by omega)]
        have hnc : containsSub (sentinel k) (pre ++ ([] ++ shieldedFrom (k + 1) r)) = false := by
          rw [List.nil_append, sentinel_eq_cons k,
            containsSub_append_left _ _ _ hpre, ← sentinel_eq_cons k]
          exact sentinel_not_in_shielded k (by omega) r (k + 1) hrw (by omega) (by omega)
        rw [replaceFirst_of_not_contains _ _ _ hnc, if_pos rfl]
        have hrest := restoreLinks_render r pre (k + 1) hrw hpre
        simp only [List.nil_append, hrest]
        simp
    | brack x =>
      rw [numSpans_cons_brack] at hlt hbound
      rcases Nat.lt_or_ge k i with hklt | hkge
      · have h1 : 'D' ∉ pre ++ ('[' :: x ++ [']']) :=
          not_mem_append_parts hpre
            (span_no_D hgw x '[' (Or.inr rfl) rfl ']' (Or.inr rfl))
        rw [shieldedFromSkip, spansOf, renderDropSpan, restoreLinks,
          if_neg (by omega : ¬ k = i), if_neg (by omega : ¬ k = i)]
        rw [replaceFirst_sentinel_at pre (shieldedFromSkip (k + 1) i r)
          ('[' :: x ++ [']']) k hpre]
        rw [if_neg (span_append_ne_sentinel pre (shieldedFromSkip (k + 1) i r)
          (shieldedFromSkip (k + 1) i r) ('[' :: x ++ [']']) '[' (Or.inr rfl) rfl)]
        have hih := ih (pre ++ ('[' :: x ++ [']'])) (k + 1) i hrw h1 hi1
          (by omega) (by omega) (by omega)
        rw [← List.append_assoc, hih]
        obtain ⟨n, hn⟩ : ∃ n, i - k = n + 1 := ⟨i - k - 1, by omega⟩
        have hn2 : n = i - (k + 1) := by omega
        rw [hn, List.getD_cons_succ, hn2]
        simp
      · have hkeq : k = i := by omega
        subst hkeq
        rw [shieldedFromSkip, spansOf, renderDropSpan, restoreLinks,
          if_pos rfl, if_pos rfl]
        rw [shieldedFromSkip_of_lt r (k + 1) k (by omega),
          renderDropSpan_of_lt r (k + 1) k (by omega)]
        have hnc : containsSub (sentinel k) (pre ++ ([] ++ shieldedFrom (k + 1) r)) = false := by
          rw [List.nil_append, sentinel_eq_cons k,
            containsSub_append_left _ _ _ hpre, ← sentinel_eq_cons k]
          exact sentinel_not_in_shielded k (by omega) r (k + 1) hrw (by omega) (by omega)
        rw [replaceFirst_of_not_contains _ _ _ hnc, if_pos rfl]
        have hrest := restoreLinks_render r pre (k + 1) hrw hpre
        simp only [List.nil_append, hrest]
        simp

/-- C2 (amended): for a shielded well-formed notes value with at most nine
protected spans, if the sentinel for span `i` is deleted from the
translated (identity) text, restoration records exactly the missing-link
error for index `i`, routes exactly span `i`'s original substring to
`missing_links` (which the script appends to the end of the emitted text),
restores all other spans in place, and increments the error count by
exactly one. -/
theorem c2_missing_token_safety (segs : List Seg) (i : Nat)
    (h : segsWf segs = true) (hi1 : 1 ≤ i) (hin : i ≤ numSpans segs)
    (hn : numSpans segs ≤ 9) :
    restoreLinks (shieldedFromSkip 1 i segs) 1 (spansOf segs) =
      ⟨renderDropSpan 1 i segs, (spansOf segs).getD (i - 1) [],
       [missingLinkErrLine i], 1⟩ := by
  have := restoreLinks_skip segs [] 1 i h (by simp) hi1 hi1 (by omega) (by omega)
  simpa using this

/-- Witness for the amended C2: `[a] x [b]` with the sentinel for span 2
deleted; restoration reports exactly link #2 missing and appends `[b]`. -/
theorem c2_missing_token_safety_witness :
    restoreLinks
      (shieldedFromSkip 1 2 [Seg.brack ['a'], Seg.plain " x ".data, Seg.brack ['b']]) 1
      (spansOf [Seg.brack ['a'], Seg.plain " x ".data, Seg.brack ['b']]) =
      ⟨renderDropSpan 1 2 [Seg.brack ['a'], Seg.plain " x ".data, Seg.brack ['b']],
       (spansOf [Seg.brack ['a'], Seg.plain " x ".data, Seg.brack ['b']]).getD 1 [],
       [missingLinkErrLine 2], 1⟩ :=
  c2_missing_token_safety [Seg.brack ['a'], Seg.plain " x ".data, Seg.brack ['b']] 2
    (by decide) (by decide) (by decide) (by decide)

/-- A ten-span notes value for the C2 counterexample. -/
def c2notes : List Char := "[a][b][c][d][e][f][g][h][i][j]".data

/-- The shielded form of `c2notes` with the sentinel for index 1 deleted
(the sentinel `DONOTTRANSLATE1` is its 15-character prefix). -/
def c2translated : List Char :=
  (shieldLoop c2notes 1 (findLinks c2notes)).drop (sentinel 1).length

/-- Counterexample to C2 as stated: with ten spans, deleting the sentinel
for index 1 does NOT make restoration record a missing-link error for
index 1, and the substring appended to the end is span 10's (`[j]`), not
span 1's (`[a]`): the pattern `DONOTTRANSLATE1` matches inside
`DONOTTRANSLATE10`, so span 1 is substituted at span 10's position
instead. -/
theorem c2_counterexample :
    missingLinkErrLine 1 ∉ (restoreLinks c2translated 1 (findLinks c2notes)).errLines ∧
    (restoreLinks c2translated 1 (findLinks c2notes)).errLines =
      [missingLinkErrLine 10] ∧
    (restoreLinks c2translated 1 (findLinks c2notes)).missing = "[j]".data ∧
    (restoreLinks c2translated 1 (findLinks c2notes)).missing ≠ "[a]".data := by
  decide

/-! ## Claim C4: the attribute sort -/

theorem lexLt_asymm : ∀ a b, lexLt a b = true → lexLt b a = false
  | [], [] => by simp [lexLt]
  | [], _ :: _ => by simp [lexLt]
  | _ :: _, [] => by simp [lexLt]
  | a :: as, b :: bs => by
    intro h
    rw [lexLt] at h ⊢
    by_cases hab : a < b
    · rw [if_neg (asymm hab : ¬ b < a), if_pos hab]
    · rw [if_neg hab] at h
      by_cases hba : b < a
      · rw [if_pos hba] at h
        simp at h
      · rw [if_neg hba] at h
        rw [if_neg hba, if_neg hab]
        exact lexLt_asymm as bs h

theorem lexLt_trans : ∀ a b c, lexLt a b = true → lexLt b c = true → lexLt a c = true := by
  intro a
  induction a with
  | nil =>
    intro b c h1 h2
    cases b with
    | nil => exact h2
    | cons y bs =>
      cases c with
      | nil => simp [lexLt] at h2
      | cons z cs => simp [lexLt]
  | cons x as ih =>
    intro b c h1 h2
    cases b with
    | nil => simp [lexLt] at h1
    | cons y bs =>
      cases c with
      | nil => simp [lexLt] at h2
      | cons z cs =>
        rw [lexLt] at h1 h2 ⊢
        by_cases hxy : x < y
        · by_cases hyz : y < z
          · rw [if_pos (lt_trans hxy hyz)]
          · rw [if_neg hyz] at h2
            by_cases hzy : z < y
            · rw [if_pos hzy] at h2
              simp at h2
            · have hyzeq : y = z := le_antisymm (not_lt.mp hzy) (not_lt.mp hyz)
              rw [if_pos (hyzeq ▸ hxy)]
        · rw [if_neg hxy] at h1
          by_cases hyx : y < x
          · rw [if_pos hyx] at h1
            simp at h1
          · rw [if_neg hyx] at h1
            have hxyeq : x = y := le_antisymm (not_lt.mp hyx) (not_lt.mp hxy)
            subst hxyeq
            by_cases hxz : x < z
            · rw [if_pos hxz]
            · rw [if_neg hxz] at h2 ⊢
              by_cases hzx : z < x
              · rw [if_pos hzx] at h2
                simp at h2
              · rw [if_neg hzx] at h2 ⊢
                exact ih bs cs h1 h2

theorem compare_attrs_digit_left {x : List Char} (hx : pyIsDigit x = true)
    (y : List Char) : compare_attrs x y = -1 := by
  simp [compare_attrs, hx]

theorem compare_attrs_digit_right {x y : List Char} (hx : pyIsDigit x = false)
    (hy : pyIsDigit y = true) : compare_attrs x y = 1 := by
  simp [compare_attrs, hx, hy]

theorem compare_attrs_lt_iff {x y : List Char} (hx : pyIsDigit x = false)
    (hy : pyIsDigit y = false) :
    compare_attrs x y < 0 ↔
      ((x ∈ important_attrs ∧ y ∉ important_attrs) ∨
       ((x ∈ important_attrs ↔ y ∈ important_attrs) ∧ lexLt x y = true)) := by
  by_cases hxi : x ∈ important_attrs <;> by_cases hyi : y ∈ important_attrs <;>
    by_cases hl : lexLt x y = true <;>
      simp [compare_attrs, hx, hy, hxi, hyi, hl]

theorem compare_attrs_trans {x y z : List Char} (h1 : compare_attrs x y < 0)
    (h2 : compare_attrs y z < 0) : compare_attrs x z < 0 := by
  by_cases hx : pyIsDigit x = true
  · rw [compare_attrs_digit_left hx]
    norm_num
  · have hx' : pyIsDigit x = false := by simpa using hx
    have hy' : pyIsDigit y = false := by
      by_contra hy
      rw [compare_attrs_digit_right hx' (by simpa using hy)] at h1
      norm_num at h1
    have hz' : pyIsDigit z = false := by
      by_contra hz
      rw [compare_attrs_digit_right hy' (by simpa using hz)] at h2
      norm_num at h2
    rw [compare_attrs_lt_iff hx' hy'] at h1
    rw [compare_attrs_lt_iff hy' hz'] at h2
    rw [compare_attrs_lt_iff hx' hz']
    rcases h1 with ⟨ha, hb⟩ | ⟨ha, hb⟩ <;> rcases h2 with ⟨hc, hd⟩ | ⟨hc, hd⟩
    · exact absurd hc hb
    · exact Or.inl ⟨ha, fun hz => hb (hc.mpr hz)⟩
    · exact Or.inl ⟨ha.mpr hc, hd⟩
    · exact Or.inr ⟨ha.trans hc, lexLt_trans _ _ _ hb hd⟩

theorem compare_attrs_asymm {x y : List Char}
    (h : ¬(pyIsDigit x = true ∧ pyIsDigit y = true))
    (h1 : compare_attrs x y < 0) : ¬ compare_attrs y x < 0 := by
  by_cases hx : pyIsDigit x = true
  · have hy : pyIsDigit y = false := by
      by_contra hy'
      exact h ⟨hx, by simpa using hy'⟩
    rw [compare_attrs_digit_right hy hx]
    norm_num
  · have hx' : pyIsDigit x = false := by simpa using hx
    by_cases hy : pyIsDigit y = true
    · rw [compare_attrs_digit_right hx' hy] at h1
      norm_num at h1
    · have hy' : pyIsDigit y = false := by simpa using hy
      rw [compare_attrs_lt_iff hx' hy'] at h1
      rw [compare_attrs_lt_iff hy' hx']
      intro h2
      rcases h1 with ⟨ha, hb⟩ | ⟨ha, hb⟩ <;> rcases h2 with ⟨hc, hd⟩ | ⟨hc, hd⟩
      · exact hd ha
      · exact hb (hc.mpr ha)
      · exact hd (ha.mpr hc)
      · have := lexLt_asymm x y hb
        rw [this] at hd
        simp at hd

/-- Sortedness with respect to the comparator: no later element compares
strictly below an earlier one. -/
def SortedA (l : List (List Char)) : Prop :=
  l.Pairwise (fun a b => ¬ compare_attrs b a < 0)

theorem insertCmp_perm (x : List Char) : ∀ ys, (insertCmp x ys).Perm (x :: ys)
  | [] => List.Perm.refl _
  | y :: ys => by
    rw [insertCmp]
    by_cases h : compare_attrs x y < 0
    · rw [if_pos h]
    · rw [if_neg h]
      exact ((insertCmp_perm x ys).cons y).trans (List.Perm.swap x y ys)

theorem insertCmp_eq_append {x : List Char} :
    ∀ {ys}, (∀ a ∈ ys, ¬ compare_attrs x a < 0) → insertCmp x ys = ys ++ [x]
  | [], _ => rfl
  | y :: ys, h => by
    rw [insertCmp, if_neg (h y (List.mem_cons_self y ys))]
    rw [insertCmp_eq_append (fun a ha => h a (List.mem_cons_of_mem y ha))]
    rfl

theorem insertCmp_sorted {x : List Char} :
    ∀ {ys}, (pyIsDigit x = true → ∀ a ∈ ys, pyIsDigit a = false) →
      SortedA ys → SortedA (insertCmp x ys) := by
  intro ys
  induction ys with
  | nil => intro _ _; simp [insertCmp, SortedA]
  | cons y ys ih =>
    intro hdig hs
    rw [SortedA, List.pairwise_cons] at hs
    obtain ⟨hy, hys⟩ := hs
    rw [insertCmp]
    by_cases h : compare_attrs x y < 0
    · rw [if_pos h]
      rw [SortedA, List.pairwise_cons]
      refine ⟨?_, List.pairwise_cons.mpr ⟨hy, hys⟩⟩
      intro z hz
      rcases List.mem_cons.mp hz with rfl | hz'
      · apply compare_attrs_asymm _ h
        rintro ⟨hdx, hdy⟩
        exact absurd (hdig hdx z (List.mem_cons_self z ys)) (by simp [hdy])
      · intro hzx
        exact (hy z hz') (compare_attrs_trans hzx h)
    · rw [if_neg h]
      rw [SortedA, List.pairwise_cons]
      constructor
      · intro z hz
        rcases List.mem_cons.mp ((insertCmp_perm x ys).mem_iff.mp hz) with rfl | hz'
        · exact h
        · exact hy z hz'
      · exact ih (fun hdx a ha => hdig hdx a (List.mem_cons_of_mem y ha)) hys

theorem two_le_filter_digits {acc rest : List (List Char)} {x a : List Char}
    (ha : a ∈ acc) (hda : pyIsDigit a = true) (hdx : pyIsDigit x = true) :
    2 ≤ ((acc ++ x :: rest).filter pyIsDigit).length := by
  rw [List.filter_append, List.length_append, List.filter_cons, if_pos hdx]
  have h1 : 1 ≤ (acc.filter pyIsDigit).length :=
    List.length_pos.mpr (List.ne_nil_of_mem (List.mem_filter.mpr ⟨ha, hda⟩))
  simp only [List.length_cons]
  omega

theorem insertCmp_append_perm (x : List Char) (acc rest : List (List Char)) :
    (insertCmp x acc ++ rest).Perm (acc ++ x :: rest) :=
  ((insertCmp_perm x acc).append_right rest).trans List.perm_middle.symm

theorem foldl_insert_sorted :
    ∀ (rest acc : List (List Char)), SortedA acc →
      ((acc ++ rest).filter pyIsDigit).length ≤ 1 →
      SortedA (rest.foldl (fun acc x => insertCmp x acc) acc) := by
  intro rest
  induction rest with
  | nil => intro acc hs _; simpa using hs
  | cons x rest ih =>
    intro acc hs hcount
    rw [List.foldl_cons]
    apply ih
    · apply insertCmp_sorted _ hs
      intro hdx a ha
      by_contra hda
      have h2 := @two_le_filter_digits acc rest x a ha (by simpa using hda) hdx
      omega
    · rw [((insertCmp_append_perm x acc rest).filter pyIsDigit).length_eq]
      exact hcount

theorem foldl_insert_of_sorted :
    ∀ (rest acc : List (List Char)), SortedA (acc ++ rest) →
      rest.foldl (fun acc x => insertCmp x acc) acc = acc ++ rest := by
  intro rest
  induction rest with
  | nil => intro acc _; simp
  | cons x rest ih =>
    intro acc hs
    rw [List.foldl_cons]
    have hx : ∀ a ∈ acc, ¬ compare_attrs x a < 0 := by
      rw [SortedA, List.pairwise_append] at hs
      intro a ha
      exact hs.2.2 a ha x (List.mem_cons_self x rest)
    rw [insertCmp_eq_append hx]
    have hs2 : SortedA ((acc ++ [x]) ++ rest) := by
      rw [List.append_assoc, List.singleton_append]
      exact hs
    rw [ih (acc ++ [x]) hs2, List.append_assoc, List.singleton_append]

theorem sortAttrs_sorted (l : List (List Char))
    (h : (l.filter pyIsDigit).length ≤ 1) : SortedA (sortAttrs l) := by
  have := foldl_insert_sorted l [] (by simp [SortedA]) (by simpa using h)
  simpa [sortAttrs] using this

/-- C4 (amended): the attribute sort is deterministic (it is a function of
its input) and idempotent on every attribute list containing at most one
purely numeric attribute — the case of real part-of-speech values, which
carry at most one homophone number.  (With two distinct numeric attributes
the comparator is inconsistent — `compare_attrs` answers `-1` whenever its
first argument is numeric — and sorting oscillates; see the
counterexample.) -/
theorem c4_attr_sort_idempotent (l : List (List Char))
    (h : (l.filter pyIsDigit).length ≤ 1) :
    sortAttrs (sortAttrs l) = sortAttrs l := by
  have hs := sortAttrs_sorted l h
  have := foldl_insert_of_sorted (sortAttrs l) [] (by simpa using hs)
  simpa [sortAttrs] using this

/-- Witness for the amended C4 on the attribute list `2,name,zz,aaa`. -/
theorem c4_attr_sort_idempotent_witness :
    (([['2'], "name".data, ['z', 'z'], "aaa".data].filter pyIsDigit).length ≤ 1) ∧
    sortAttrs (sortAttrs [['2'], "name".data, ['z', 'z'], "aaa".data]) =
      sortAttrs [['2'], "name".data, ['z', 'z'], "aaa".data] :=
  ⟨by decide, c4_attr_sort_idempotent _ (by decide)⟩

/-- Counterexample to C4 as stated: on the attribute list `1,2` (two
numeric attributes) the comparator is inconsistent (`compare_attrs` returns
`-1` both ways), so sorting a list the sort has already produced does NOT
yield the same list — the order oscillates between `2,1` and `1,2` on
repeated runs. -/
theorem c4_counterexample :
    sortAttrs [['1'], ['2']] = [['2'], ['1']] ∧
    sortAttrs (sortAttrs [['1'], ['2']]) = [['1'], ['2']] ∧
    sortAttrs (sortAttrs [['1'], ['2']]) ≠ sortAttrs [['1'], ['2']] := by
  decide

/-! ## Claims C8 and C3 -/

/-- A provider that always raises (used to instantiate runs in which the
provider is never consulted, or always fails). -/
def trNone : Provider := fun _ _ => none

/-- C8: Multiline accumulation.  Processing the three lines
`<column name="notes">part one`, `part two`, `part three</column>` from the
initial state, the accumulator yields the single logical notes value
`part one\npart two\npart three` (newline-joined, terminator stripped), the
pending buffer returns to empty, and the provider is never consulted. -/
theorem c8_multiline_accumulation :
    (processLines trNone st0
      ["<column name=\"notes\">part one".data, "part two".data,
       "part three</column>".data]).st.notes =
      "part one\npart two\npart three".data ∧
    (processLines trNone st0
      ["<column name=\"notes\">part one".data, "part two".data,
       "part three</column>".data]).st.multiline_notes = [] ∧
    (processLines trNone st0
      ["<column name=\"notes\">part one".data, "part two".data,
       "part three</column>".data]).calls = [] := by
  decide

/-- Counterexample to C3 as stated: on the unbalanced line `(` the script
emits the inline `Mismatched brackets` annotation but does NOT increment
the error counter (lines 236-237 contain no `num_errors += 1`). -/
theorem c3_counterexample :
    (processLine trNone st0 ['(']).emitted = [bracketErrLine, ['(']] ∧
    (processLine trNone st0 ['(']).st.num_errors = st0.num_errors := by
  decide

/-- C3 (amended): for every rewritten line that the bracket validator
classifies as unbalanced, the program emits the inline error annotation
immediately before the line and continues processing, but does NOT
increment the error counter (here stated for lines on which no other stage
fires, so that the bracket check is the only active one). -/
theorem c3_bracket_error_annotation (tr : Provider) (st : St) (line : List Char)
    (hcom : st.in_comment = false)
    (hstart : containsSub "<!-- ".data line = false)
    (hdef : searchDefinition line = none)
    (hdir : searchDefDirective line = none)
    (hpos : searchPos line = none)
    (hml : st.multiline_notes = [])
    (hnotes : searchNotes line = none)
    (hndir : searchNotesDirective line = none)
    (hbal : balanced_brackets line = false) :
    (processLine tr st line).emitted = [bracketErrLine, line] ∧
    (processLine tr st line).st.num_errors = st.num_errors := by
  unfold processLine
  simp [hcom, hstart, defCapture, hdef, defTranslate, hdir, posSort, hpos,
    notesAccum, hml, hnotes, notesTranslate, hndir, hbal]

/-- Witness for the amended C3 at the unbalanced line `)(`. -/
theorem c3_bracket_error_annotation_witness :
    (processLine trNone st0 [')', '(']).emitted = [bracketErrLine, [')', '(']] ∧
    (processLine trNone st0 [')', '(']).st.num_errors = st0.num_errors :=
  c3_bracket_error_annotation trNone st0 [')', '('] (by decide) (by decide)
    (by decide) (by decide) (by decide) (by decide) (by decide) (by decide)
    (by decide)

/-! ## Claims C7 and C6 -/

/-- C7: on provider failure (the provider raises, or returns the empty
string) for a definition-translation directive, the field is written back
as a fresh `TRANSLATE` marker so a future run can retry, and the error
counter is not incremented.  (Stated for directive lines on which no other
stage fires.) -/
theorem c7_provider_failure_writeback (tr : Provider) (st : St)
    (line code : List Char)
    (hcom : st.in_comment = false)
    (hstart : containsSub "<!-- ".data line = false)
    (hdef : searchDefinition line = none)
    (hdir : searchDefDirective line = some (code, none))
    (hd : st.definition ≠ [])
    (hlang : supported_languages_map (replaceUnderscore code) ≠ [])
    (hverb : ¬ (st.definition.head? = some '{' ∧ st.definition.getLast? = some '}'))
    (hfail : translateF tr st.definition (supported_languages_map (replaceUnderscore code)) = [])
    (hpos : searchPos (subAngle "TRANSLATE".data line) = none)
    (hml : st.multiline_notes = [])
    (hnotes : searchNotes (subAngle "TRANSLATE".data line) = none)
    (hndir : searchNotesDirective (subAngle "TRANSLATE".data line) = none)
    (hbal : balanced_brackets (subAngle "TRANSLATE".data line) = true) :
    (processLine tr st line).emitted = [subAngle "TRANSLATE".data line] ∧
    (processLine tr st line).st.num_errors = st.num_errors ∧
    (processLine tr st line).calls =
      [(st.definition, supported_languages_map (replaceUnderscore code))] := by
  unfold processLine
  simp [hcom, hstart, defCapture, hdef, defTranslate, hdir, hd, hlang, hverb,
    hfail, posSort, hpos, notesAccum, hml, hnotes, notesTranslate, hndir, hbal]

/-- Witness for C7: a `de` directive with stored definition `launcher` and a
provider that raises. -/
theorem c7_provider_failure_writeback_witness :
    (processLine trNone { st0 with definition := "launcher".data }
      "<column name=\"definition_de\">TRANSLATE</column>".data).emitted =
      [subAngle "TRANSLATE".data
        "<column name=\"definition_de\">TRANSLATE</column>".data] ∧
    (processLine trNone { st0 with definition := "launcher".data }
      "<column name=\"definition_de\">TRANSLATE</column>".data).st.num_errors =
      ({ st0 with definition := "launcher".data } : St).num_errors ∧
    (processLine trNone { st0 with definition := "launcher".data }
      "<column name=\"definition_de\">TRANSLATE</column>".data).calls =
      [("launcher".data,
        supported_languages_map (replaceUnderscore "de".data))] :=
  c7_provider_failure_writeback trNone { st0 with definition := "launcher".data }
    "<column name=\"definition_de\">TRANSLATE</column>".data "de".data
    (by decide) (by decide) (by decide) (by decide) (by decide) (by decide)
    (by decide) (by decide) (by decide) (by decide) (by decide) (by decide)
    (by decide)

/-- A backslash-free replacement template expands to itself. -/
theorem pyReplEscapeAux_id (g1 : List Char) :
    ∀ fuel t, t.length < fuel → (∀ c ∈ t, c ≠ '\\') →
      pyReplEscapeAux g1 fuel t = Except.ok t := by
  intro fuel
  induction fuel with
  | zero => intro t hlen _; omega
  | succ fuel ih =>
    intro t hlen hfree
    match t with
    | [] => rfl
    | c :: rest =>
      rw [pyReplEscapeAux, if_neg (hfree c (List.mem_cons_self c rest))]
      rw [ih rest (by simp at hlen; omega)
        (fun d hd => hfree d (List.mem_cons_of_mem c hd))]
      rfl

theorem pyReplEscape_id (g1 t : List Char) (h : ∀ c ∈ t, c ≠ '\\') :
    pyReplEscape g1 t = Except.ok t :=
  pyReplEscapeAux_id g1 (t.length + 1) t (by omega) h

/-- On a backslash-free inserted text the fallible rewrite model succeeds
and agrees with the literal `subAngle`. -/
theorem subAngleE_ok (x line : List Char) (hx : '\\' ∉ x) :
    subAngleE x line = Except.ok (subAngle x line) := by
  have hfr : ∀ c ∈ ('>' :: x ++ ['<'] : List Char), c ≠ '\\' := by
    intro c hc
    rcases List.mem_cons.mp hc with h | h
    · subst h; decide
    · rcases List.mem_append.mp h with h | h
      · exact fun he => hx (he ▸ h)
      · simp at h; subst h; decide
  unfold subAngleE subAngle
  cases hs : splitFirst ['>'] line with
  | none => simp only [hs]
  | some p =>
    obtain ⟨a, r⟩ := p
    simp only [hs]
    cases h2 : splitLast ['<'] r with
    | none => simp only [h2]
    | some q =>
      obtain ⟨g1, b⟩ := q
      simp only [h2, pyReplEscape_id g1 ('>' :: x ++ ['<']) hfr]
      simp [Except.map]

/-- C6 (amended): Verbatim passthrough.  When a definition-translation
directive is actioned and the stored value is entirely one protected span
`{inner}` (it starts with `{` and ends with `}` covering the whole value)
and contains no backslash, the value is never sent to the translation
provider and is emitted unchanged except for the surrounding markup — the
rewritten line carries exactly the value, with no auto-translated
annotation, and the replacement-template model confirms the rewrite is the
literal insertion.  (Stated for directive lines on which no other stage
fires.  Without the backslash exclusion CPython's template processing
rewrites or rejects the value — see the counterexample.) -/
theorem c6_verbatim_passthrough (tr : Provider) (st : St)
    (line code inner : List Char)
    (hcom : st.in_comment = false)
    (hstart : containsSub "<!-- ".data line = false)
    (hdef : searchDefinition line = none)
    (hdir : searchDefDirective line = some (code, none))
    (hdefn : st.definition = '{' :: inner ++ ['}'])
    (hfree : ∀ c ∈ inner, c ≠ '{' ∧ c ≠ '}')
    (hnb : '\\' ∉ st.definition)
    (hlang : supported_languages_map (replaceUnderscore code) ≠ [])
    (hpos : searchPos (subAngle st.definition line) = none)
    (hml : st.multiline_notes = [])
    (hnotes : searchNotes (subAngle st.definition line) = none)
    (hndir : searchNotesDirective (subAngle st.definition line) = none)
    (hbal : balanced_brackets (subAngle st.definition line) = true) :
    subAngleE st.definition line = Except.ok (subAngle st.definition line) ∧
    (processLine tr st line).calls = [] ∧
    (processLine tr st line).emitted = [subAngle st.definition line] := by
  refine ⟨subAngleE_ok st.definition line hnb, ?_⟩
  have hd : st.definition ≠ [] := by rw [hdefn]; simp
  have hverb : st.definition.head? = some '{' ∧ st.definition.getLast? = some '}' := by
    rw [hdefn]
    constructor
    · rfl
    · rw [show ('{' :: inner ++ ['}'] : List Char) = ('{' :: inner) ++ ['}'] by simp]
      exact List.getLast?_concat _
  unfold processLine
  simp [hcom, hstart, defCapture, hdef, defTranslate, hdir, hd, hlang, hverb,
    posSort, hpos, notesAccum, hml, hnotes, notesTranslate, hndir, hbal]

/-- Witness for C6: a `de` directive with stored verbatim value
`{tlhIngan}`; the template model agrees, no provider call, value copied
through. -/
theorem c6_verbatim_passthrough_witness :
    subAngleE "\x7btlhIngan\x7d".data
      "<column name=\"definition_de\">TRANSLATE</column>".data =
      Except.ok (subAngle "\x7btlhIngan\x7d".data
        "<column name=\"definition_de\">TRANSLATE</column>".data) ∧
    (processLine trNone { st0 with definition := "\x7btlhIngan\x7d".data }
      "<column name=\"definition_de\">TRANSLATE</column>".data).calls = [] ∧
    (processLine trNone { st0 with definition := "\x7btlhIngan\x7d".data }
      "<column name=\"definition_de\">TRANSLATE</column>".data).emitted =
      [subAngle "\x7btlhIngan\x7d".data
        "<column name=\"definition_de\">TRANSLATE</column>".data] :=
  c6_verbatim_passthrough trNone { st0 with definition := "\x7btlhIngan\x7d".data }
    "<column name=\"definition_de\">TRANSLATE</column>".data "de".data
    "tlhIngan".data (by decide) (by decide) (by decide) (by decide) (by decide)
    (by decide) (by decide) (by decide) (by decide) (by decide) (by decide)
    (by decide) (by decide)

/-- Counterexample to C6 as previously stated for all verbatim values:
CPython processes the replacement template for escapes.  With stored value
`{a\1b}` the rewritten line substitutes group 1 — the text `TRANSLATE`
standing between the markup brackets — for `\1`, so the emitted value is
`{aTRANSLATEb}`, not the stored value; and with stored value `{a\qb}` the
replacement raises `re.error("bad escape")` and the program crashes. -/
theorem c6_counterexample :
    subAngleE "\x7ba\\1b\x7d".data
        "<column name=\"definition_de\">TRANSLATE</column>".data =
      Except.ok "<column name=\"definition_de\">\x7baTRANSLATEb\x7d</column>".data ∧
    subAngle "\x7ba\\1b\x7d".data
        "<column name=\"definition_de\">TRANSLATE</column>".data ≠
      "<column name=\"definition_de\">\x7baTRANSLATEb\x7d</column>".data ∧
    subAngleE "\x7ba\\qb\x7d".data
        "<column name=\"definition_de\">TRANSLATE</column>".data =
      Except.error () :=
  ⟨rfl, by decide, rfl⟩

/-! ## Claims C9 and C10 -/

/-- Counterexample to C9 as stated: `multiline_notes` is process-wide, not
per-file.  After a file whose notes field never reaches its terminator, the
buffer still holds `part one\n` (so the next file does NOT begin with an
empty buffer), and a second file beginning `rest</column>` completes the
field with the carried content: the logical notes value becomes
`part one\nrest`, mixing content from both files. -/
theorem c9_counterexample :
    (runFiles trNone st0 [["<column name=\"notes\">part one".data]]).st.multiline_notes =
      "part one\n".data ∧
    (runFiles trNone st0 [["<column name=\"notes\">part one".data],
      ["rest</column>".data]]).st.notes = "part one\nrest".data := by
  decide

/-- C9 (amended): the pending multiline buffer is process-wide and
single-occupancy.  Opening a new file resets `definition`, `notes` and
`in_comment` but deliberately carries `multiline_notes` over unchanged (it
is NOT file-scoped); the buffer resets to empty exactly when a notes match
ends with the field terminator without being the bare terminator line. -/
theorem c9_buffer_scope :
    (∀ st : St, (fileInit st).multiline_notes = st.multiline_notes ∧
      (fileInit st).definition = [] ∧ (fileInit st).notes = [] ∧
      (fileInit st).in_comment = false) ∧
    (∀ (st : St) (line g : List Char),
      (if st.multiline_notes = [] then searchNotes line else some line) = some g →
      colTerminator.isSuffixOf g = true → g ≠ colTerminator →
      (notesAccum st line).multiline_notes = []) := by
  constructor
  · intro st
    exact ⟨rfl, rfl, rfl, rfl⟩
  · intro st line g hm hsuf hne
    rw [notesAccum, hm]
    simp [hne, hsuf]

/-- Witness for the amended C9: the buffer survives `fileInit` and is
cleared by a terminator-ending notes line. -/
theorem c9_buffer_scope_witness :
    ((fileInit { st0 with multiline_notes := "part one\n".data }).multiline_notes =
      ({ st0 with multiline_notes := "part one\n".data } : St).multiline_notes ∧
     (fileInit { st0 with multiline_notes := "part one\n".data }).definition = [] ∧
     (fileInit { st0 with multiline_notes := "part one\n".data }).notes = [] ∧
     (fileInit { st0 with multiline_notes := "part one\n".data }).in_comment = false) ∧
    (notesAccum { st0 with multiline_notes := "part one\n".data }
      "rest</column>".data).multiline_notes = [] :=
  ⟨c9_buffer_scope.1 { st0 with multiline_notes := "part one\n".data },
   c9_buffer_scope.2 { st0 with multiline_notes := "part one\n".data }
     "rest</column>".data "rest</column>".data (by decide) (by decide) (by decide)⟩

/-- A provider stub returning `X` for every request. -/
def trX : Provider := fun _ _ => some ['X']

/-- Counterexample to C10 as stated: the stored definition is NOT only
overwritten by definition-source lines.  After `definition` captures
`launcher`, a `de` directive with override `TRANSLATE: rocket launcher`
overwrites the stored definition with the override, so the following plain
`fr` directive is translated against `rocket launcher`, not against the
most recently seen definition-source content `launcher`. -/
theorem c10_counterexample :
    (runFile trX st0
      ["<column name=\"definition\">launcher</column>".data,
       "<column name=\"definition_de\">TRANSLATE: rocket launcher</column>".data,
       "<column name=\"definition_fr\">TRANSLATE</column>".data]).calls =
      [("rocket launcher".data, "de".data), ("rocket launcher".data, "fr".data)] ∧
    "rocket launcher".data ≠ "launcher".data := by
  decide

/-- The notes accumulator never touches the stored definition. -/
theorem notesAccum_definition (st : St) (line : List Char) :
    (notesAccum st line).definition = st.definition := by
  rw [notesAccum]
  cases h : (if st.multiline_notes = [] then searchNotes line else some line) with
  | none => rfl
  | some g => simp

/-- An actioned directive with a nonempty override stores the override as
the new definition, whatever the provider does. -/
theorem defTranslate_override (tr : Provider) (st : St) (line code o : List Char)
    (hdir : searchDefDirective line = some (code, some o))
    (hd : st.definition ≠ []) (ho : o ≠ [])
    (hlang : supported_languages_map (replaceUnderscore code) ≠ []) :
    (defTranslate tr st line).1.definition = o := by
  rw [defTranslate, hdir]
  simp only [hd, hlang, ho, if_false, ite_false, ite_true, if_neg, not_false_iff]
  simp [hd, hlang, ho]
  split
  · simp
  · split <;> simp

/-- C10 (amended): within a file the definition source value is persistent
state, overwritten by definition-source lines AND by any nonempty directive
override; a definition-directive line is translated against the currently
stored content, and when that content is empty the directive line is
emitted unchanged with no provider call made. -/
theorem c10_definition_persistence :
    (∀ (tr : Provider) (st : St) (line : List Char) (code : List Char)
       (ov : Option (List Char)),
      st.in_comment = false →
      containsSub "<!-- ".data line = false →
      searchDefinition line = none →
      searchDefDirective line = some (code, ov) →
      st.definition = [] →
      searchPos line = none →
      st.multiline_notes = [] →
      searchNotes line = none →
      searchNotesDirective line = none →
      balanced_brackets line = true →
      (processLine tr st line).emitted = [line] ∧
      (processLine tr st line).calls = [] ∧
      (processLine tr st line).st.definition = []) ∧
    (∀ (tr : Provider) (st : St) (line : List Char) (code o : List Char),
      st.in_comment = false →
      containsSub "<!-- ".data line = false →
      searchDefinition line = none →
      searchDefDirective line = some (code, some o) →
      st.definition ≠ [] →
      o ≠ [] →
      supported_languages_map (replaceUnderscore code) ≠ [] →
      (processLine tr st line).st.definition = o) := by
  constructor
  · intro tr st line code ov hcom hstart hdef hdir hd hpos hml hnotes hndir hbal
    unfold processLine
    simp [hcom, hstart, defCapture, hdef, defTranslate, hdir, hd, posSort, hpos,
      notesAccum, hml, hnotes, notesTranslate, hndir, hbal]
  · intro tr st line code o hcom hstart hdef hdir hd ho hlang
    have hproj : (processLine tr st line).st.definition =
        (notesAccum (defTranslate tr st line).1
          (posSort (defTranslate tr st line).2.1)).definition := by
      unfold processLine
      simp [hcom, hstart, defCapture, hdef]
    rw [hproj, notesAccum_definition]
    exact defTranslate_override tr st line code o hdir hd ho hlang

/-- Witness for the amended C10: an `fr` directive with empty stored
definition is emitted unchanged with no call; a `de` directive with
override `rocket launcher` overwrites the stored definition. -/
theorem c10_definition_persistence_witness :
    ((processLine trX st0
        "<column name=\"definition_fr\">TRANSLATE</column>".data).emitted =
      ["<column name=\"definition_fr\">TRANSLATE</column>".data] ∧
     (processLine trX st0
        "<column name=\"definition_fr\">TRANSLATE</column>".data).calls = [] ∧
     (processLine trX st0
        "<column name=\"definition_fr\">TRANSLATE</column>".data).st.definition = []) ∧
    (processLine trX { st0 with definition := "launcher".data }
      "<column name=\"definition_de\">TRANSLATE: rocket launcher</column>".data).st.definition =
      "rocket launcher".data :=
  ⟨c10_definition_persistence.1 trX st0
      "<column name=\"definition_fr\">TRANSLATE</column>".data "fr".data none
      (by decide) (by decide) (by decide) (by decide) (by decide) (by decide)
      (by decide) (by decide) (by decide) (by decide),
   c10_definition_persistence.2 trX { st0 with definition := "launcher".data }
      "<column name=\"definition_de\">TRANSLATE: rocket launcher</column>".data
      "de".data "rocket launcher".data
      (by decide) (by decide) (by decide) (by decide) (by decide) (by decide)
      (by decide)⟩

/-! ## Claim C5 -/

theorem isSuffixOf_append_self (t v : List Char) : t.isSuffixOf (v ++ t) = true := by
  rw [List.isSuffixOf, List.reverse_append]
  exact isPrefixOf_append_self _ _

theorem append_left_ne_self {v t : List Char} (hv : v ≠ []) : v ++ t ≠ t := by
  intro h
  have hlen := congrArg List.length h
  rw [List.length_append] at hlen
  have hv0 : v.length = 0 := by omega
  exact hv (List.eq_nil_of_length_eq_zero hv0)

theorem take_sub_append (v t : List Char) :
    (v ++ t).take ((v ++ t).length - t.length) = v := by
  rw [List.length_append]
  rw [show v.length + t.length - t.length = v.length by omega]
  exact List.take_left v t

/-- The shielded form of a well-formed text contains no opening bracket:
every protected span has been replaced by its sentinel. -/
theorem shieldedFrom_no_openers (segs : List Seg) :
    ∀ k, segsWf segs = true → ∀ c ∈ shieldedFrom k segs, c ≠ '{' ∧ c ≠ '[' := by
  induction segs with
  | nil => intro k _ c hc; simp [shieldedFrom] at hc
  | cons g r ih =>
    intro k hwf c hc
    obtain ⟨hgw, hrw⟩ := segsWf_cons hwf
    cases g with
    | plain s =>
      rw [shieldedFrom] at hc
      rcases List.mem_append.mp hc with h | h
      · have hs := segWf_ordinary hgw
        rw [segContent] at hs
        exact ⟨ordinary_ne (hs c h) (by decide), ordinary_ne (hs c h) (by decide)⟩
      · exact ih k hrw c h
    | brace x =>
      rw [shieldedFrom] at hc
      rcases List.mem_append.mp hc with h | h
      · have hs := sentinel_no_openers k
        exact ⟨fun he => hs.1 (he ▸ h), fun he => hs.2 (he ▸ h)⟩
      · exact ih (k + 1) hrw c h
    | brack x =>
      rw [shieldedFrom] at hc
      rcases List.mem_append.mp hc with h | h
      · have hs := sentinel_no_openers k
        exact ⟨fun he => hs.1 (he ▸ h), fun he => hs.2 (he ▸ h)⟩
      · exact ih (k + 1) hrw c h

/-- Reading a single-line notes field shields it: the accumulator stores
the text with every span replaced by its sentinel, and remembers the
spans. -/
theorem notesAccum_shields (st : St) (segs : List Seg) (hwf : segsWf segs = true)
    (hml : st.multiline_notes = []) (hv : render segs ≠ []) :
    notesAccum st ("<column name=\"notes\">".data ++ (render segs ++ colTerminator)) =
      { st with
        notes := shieldedFrom 1 segs
        multiline_notes := []
        link_matches := spansOf segs } := by
  have hsearch : searchNotes ("<column name=\"notes\">".data ++
      (render segs ++ colTerminator)) = some (render segs ++ colTerminator) := by
    rw [searchNotes]
    rw [show ("<column name=\"notes\">".data : List Char) =
      "<column name=".data ++ ('"' :: "notes\">".data) from rfl]
    rw [splitFirst_append "<column name=".data (render segs ++ colTerminator)
      "notes\">".data '"' (by decide)]
    rfl
  rw [notesAccum, hml, if_pos rfl, hsearch]
  dsimp only
  rw [if_neg (append_left_ne_self hv)]
  rw [if_neg (not_not_intro (isSuffixOf_append_self colTerminator (render segs)))]
  rw [take_sub_append, List.nil_append]
  rw [findLinks_render segs hwf]
  have hb := shieldLoop_render segs [] 1 hwf (by simp) (by simp)
  rw [List.nil_append] at hb
  rw [hb, List.nil_append]

/-- C5 (amended): for a matched notes-translation directive on a
well-formed notes value in which no brace interior is quantifier-form (so
the line-203 patterns all compile — without that exclusion the shielding
re.sub raises `re.error` before any provider call), the value sent to the
external provider is the shielded notes — the stored value in which every
protected `{...}` and `[...]` span has been replaced by its sentinel, so
the text sent contains no opening bracket at all.  (The script only
shields notes; definitions are sent raw — see the counterexample.)  Stated
for a two-line run: a single-line well-formed notes field followed by the
concrete `de` notes directive. -/
theorem c5_notes_shielded_before_provider (tr : Provider) (st : St)
    (segs : List Seg)
    (hwf : segsWf segs = true)
    (hsafe : segsShieldSafe segs = true)
    (hcom : st.in_comment = false)
    (hml : st.multiline_notes = [])
    (hv : render segs ≠ [])
    (hsh : shieldedFrom 1 segs ≠ [])
    (hstart1 : containsSub "<!-- ".data
      ("<column name=\"notes\">".data ++ (render segs ++ colTerminator)) = false)
    (hdef1 : searchDefinition
      ("<column name=\"notes\">".data ++ (render segs ++ colTerminator)) = none)
    (hdir1 : searchDefDirective
      ("<column name=\"notes\">".data ++ (render segs ++ colTerminator)) = none)
    (hpos1 : searchPos
      ("<column name=\"notes\">".data ++ (render segs ++ colTerminator)) = none)
    (hndir1 : searchNotesDirective
      ("<column name=\"notes\">".data ++ (render segs ++ colTerminator)) = none) :
    shieldLoopE (render segs) 1 (findLinks (render segs)) =
      Except.ok (shieldedFrom 1 segs) ∧
    (processLines tr st
      ["<column name=\"notes\">".data ++ (render segs ++ colTerminator),
       "<column name=\"notes_de\">TRANSLATE</column>".data]).calls =
      [(shieldedFrom 1 segs, "de".data)] ∧
    (∀ c ∈ shieldedFrom 1 segs, c ≠ '{' ∧ c ≠ '[') := by
  refine ⟨?_, ?_, shieldedFrom_no_openers segs 1 hwf⟩
  · rw [findLinks_render segs hwf,
      shieldLoopE_ok _ _ _ (spansOf_shieldSafe segs hsafe)]
    have hb := shieldLoop_render segs [] 1 hwf (by simp) (by simp)
    simp only [List.nil_append] at hb
    rw [hb]
  have haccum := notesAccum_shields st segs hwf hml hv
  have hstA : (processLine tr st
      ("<column name=\"notes\">".data ++ (render segs ++ colTerminator))).st =
      { st with
        notes := shieldedFrom 1 segs
        multiline_notes := []
        link_matches := spansOf segs
        in_comment := false } := by
    unfold processLine
    simp only [hcom, hstart1, Bool.or_self, Bool.false_eq_true, if_false,
      defCapture, hdef1, defTranslate, hdir1, posSort, hpos1, haccum,
      notesTranslate, hndir1]
    simp
  have hstC : (processLine tr st
      ("<column name=\"notes\">".data ++ (render segs ++ colTerminator))).calls = [] := by
    unfold processLine
    simp only [hcom, hstart1, Bool.or_self, Bool.false_eq_true, if_false,
      defCapture, hdef1, defTranslate, hdir1, posSort, hpos1, haccum,
      notesTranslate, hndir1]
    simp
  have e1 : searchDefinition "<column name=\"notes_de\">TRANSLATE</column>".data = none := by
    decide
  have e2 : searchDefDirective "<column name=\"notes_de\">TRANSLATE</column>".data = none := by
    decide
  have e3 : searchPos "<column name=\"notes_de\">TRANSLATE</column>".data = none := by decide
  have e4 : searchNotes "<column name=\"notes_de\">TRANSLATE</column>".data = none := by decide
  have e5 : searchNotesDirective "<column name=\"notes_de\">TRANSLATE</column>".data =
      some "de".data := by decide
  have e6 : containsSub "<!-- ".data
      "<column name=\"notes_de\">TRANSLATE</column>".data = false := by decide
  have e7 : supported_languages_map (replaceUnderscore ['d', 'e']) = ['d', 'e'] := by
    decide
  have e8 : (['d', 'e'] : List Char) ≠ [] := by decide
  have e9 : ("de".data : List Char) = ['d', 'e'] := by decide
  have hcalls2 : ∀ st2 : St, st2.in_comment = false → st2.multiline_notes = [] →
      st2.notes = shieldedFrom 1 segs →
      (processLine tr st2 "<column name=\"notes_de\">TRANSLATE</column>".data).calls =
        [(shieldedFrom 1 segs, "de".data)] := by
    intro st2 h1 h2 h3
    unfold processLine
    simp only [h1, e6, Bool.or_self, Bool.false_eq_true, if_false, if_true,
      defCapture, e1, defTranslate, e2, posSort, e3, notesAccum, h2, e4,
      notesTranslate, e5, e9]
    rw [h3, if_neg hsh, e7, if_neg e8]
    split <;> simp [e9]
  simp only [processLines]
  rw [hstC, hcalls2 (processLine tr st
      ("<column name=\"notes\">".data ++ (render segs ++ colTerminator))).st
      (by rw [hstA]) (by rw [hstA]) (by rw [hstA])]
  simp

/-- Witness for the amended C5: notes value `see {boQ} now` followed by the
`de` directive: the provider receives `see DONOTTRANSLATE1 now`. -/
theorem c5_notes_shielded_before_provider_witness :
    shieldLoopE
        (render [Seg.plain "see ".data, Seg.brace "boQ".data, Seg.plain " now".data]) 1
        (findLinks
          (render [Seg.plain "see ".data, Seg.brace "boQ".data, Seg.plain " now".data])) =
      Except.ok (shieldedFrom 1
        [Seg.plain "see ".data, Seg.brace "boQ".data, Seg.plain " now".data]) ∧
    (processLines trNone st0
      ["<column name=\"notes\">".data ++
        (render [Seg.plain "see ".data, Seg.brace "boQ".data, Seg.plain " now".data] ++
          colTerminator),
       "<column name=\"notes_de\">TRANSLATE</column>".data]).calls =
      [(shieldedFrom 1 [Seg.plain "see ".data, Seg.brace "boQ".data,
        Seg.plain " now".data], "de".data)] ∧
    (∀ c ∈ shieldedFrom 1 [Seg.plain "see ".data, Seg.brace "boQ".data,
      Seg.plain " now".data], c ≠ '{' ∧ c ≠ '[') :=
  c5_notes_shielded_before_provider trNone st0
    [Seg.plain "see ".data, Seg.brace "boQ".data, Seg.plain " now".data]
    (by decide) (by decide) (by decide) (by decide) (by decide) (by decide)
    (by decide) (by decide) (by decide) (by decide) (by decide)

/-- Counterexample to C5 as stated: definitions are NOT passed through the
Token Shield.  With stored definition `a {b} c` (not a full verbatim span),
the `de` directive sends the raw value to the provider: the text sent still
contains the protected span `{b}` rather than a sentinel. -/
theorem c5_counterexample :
    (runFile trNone st0
      ["<column name=\"definition\">a \x7bb\x7d c</column>".data,
       "<column name=\"definition_de\">TRANSLATE</column>".data]).calls =
      [("a \x7bb\x7d c".data, "de".data)] ∧
    containsSub "\x7bb\x7d".data "a \x7bb\x7d c".data = true := by
  decide

end KlingonTranslate
